import Mathlib

/-!
Verification of the solo coin-flip round lifecycle of the
circles-gnosisApp-starter-kit repository.

Modelling conventions:
* TypeScript strings are modelled as `List Char` (abbreviated `Str`);
  concrete literals are written via `String.data`.
* JS `bigint` amounts are modelled as `Nat` (every amount in the sources
  is non-negative); JS `number` timestamps as `Int`.
* `undefined`-able fields become `Option`; JS string truthiness
  (`undefined`/`""` are falsy) is `optTruthy`.
* External library calls (viem `parseUnits` / `formatUnits` /
  `isAddress`, the Circles SDK, RPC queries, `Date.parse`,
  `crypto.randomInt`, `crypto.randomUUID`) are embedded by their
  documented semantics or passed in as explicit oracle arguments.
* `String.prototype.toLowerCase` / `trim` are modelled on the ASCII
  fragment (`jsToLower`, `trimStr`); every string the round lifecycle
  manipulates (addresses, markers, hex data, statuses) is ASCII.
-/

abbrev Str := List Char

/-- ASCII fragment of the JS `\s` / `String.prototype.trim` whitespace class. -/
def jsIsSpace (c : Char) : Bool :=
  c = ' ' || c = '\t' || c = '\n' || c = '\r' || c = '\x0b' || c = '\x0c'

/-- ASCII fragment of JS `String.prototype.toLowerCase` (character level). -/
def jsToLowerChar (c : Char) : Char :=
  if 'A' ≤ c && c ≤ 'Z' then Char.ofNat (c.toNat + 32) else c

/-- ASCII fragment of JS `String.prototype.toLowerCase`. -/
def jsToLower (s : Str) : Str :=
  s.map jsToLowerChar

/-- JS `String.prototype.trim` (ASCII whitespace). -/
def trimStr (s : Str) : Str :=
  ((s.dropWhile jsIsSpace).reverse.dropWhile jsIsSpace).reverse

def isDecDigit (c : Char) : Bool :=
  '0' ≤ c && c ≤ '9'

/-- Lowercase hexadecimal digit, as in the regex `/^[0-9a-f]+$/`. -/
def isLowerHexDigit (c : Char) : Bool :=
  ('0' ≤ c && c ≤ '9') || ('a' ≤ c && c ≤ 'f')

/-- Case-insensitive hexadecimal digit, as in `/^[0-9a-f]+$/i` and
`/^0x[0-9a-fA-F]{64}$/`. -/
def isHexDigitCI (c : Char) : Bool :=
  ('0' ≤ c && c ≤ '9') || ('a' ≤ c && c ≤ 'f') || ('A' ≤ c && c ≤ 'F')

/-- Numeric value of a (possibly hex) digit character, as consumed by JS
`parseInt(-, 16)` on the strings the code feeds it. -/
def charDigitVal (c : Char) : Nat :=
  if '0' ≤ c && c ≤ '9' then c.toNat - 48
  else if 'a' ≤ c && c ≤ 'f' then c.toNat - 87
  else if 'A' ≤ c && c ≤ 'F' then c.toNat - 55
  else 0

/-- Digit character emitted by JS `Number.prototype.toString(16)` /
`BigInt.prototype.toString()` (lowercase). -/
def digitToChar (d : Nat) : Char :=
  match d with
  | 0 => '0' | 1 => '1' | 2 => '2' | 3 => '3' | 4 => '4'
  | 5 => '5' | 6 => '6' | 7 => '7' | 8 => '8' | 9 => '9'
  | 10 => 'a' | 11 => 'b' | 12 => 'c' | 13 => 'd' | 14 => 'e' | 15 => 'f'
  | _ => '0'

/-- Value of a decimal digit string, as produced by JS `BigInt(string)`
on an all-digit string. -/
def strToNat (s : Str) : Nat :=
  s.foldl (fun a c => 10 * a + charDigitVal c) 0

/-- Little-endian base-10 digits with explicit fuel (executable twin of
`Nat.digits 10`, see `digitsLE_eq_digits`). -/
def digitsLE : Nat → Nat → List Nat
  | 0, _ => []
  | fuel + 1, n => if n = 0 then [] else n % 10 :: digitsLE fuel (n / 10)

/-- Decimal rendering of a natural number, as produced by JS
`BigInt.prototype.toString()` / `String(number)` on non-negative values. -/
def natDecRepr (n : Nat) : Str :=
  if n = 0 then ['0'] else ((digitsLE n n).reverse.map digitToChar)

/-- Decimal rendering of a JS number that is an integer (used for
`String(row.timestamp)` where the value may predate the epoch). -/
def intDecRepr (i : Int) : Str :=
  if i < 0 then '-' :: natDecRepr i.natAbs else natDecRepr i.natAbs

/-- JS `str.replace(/0+$/, "")`: drop trailing `'0'` characters. -/
def trimTrailingZeros (s : Str) : Str :=
  (s.reverse.dropWhile (fun c => c = '0')).reverse

/-- First component of JS `value.split(".")`. -/
def dotSplitWhole (s : Str) : Str :=
  s.takeWhile (fun c => c ≠ '.')

/-- Second component of JS `value.split(".")` (empty when there is no dot;
the strings this is applied to contain at most one dot). -/
def dotSplitFrac (s : Str) : Str :=
  (s.dropWhile (fun c => c ≠ '.')).drop 1

/-- The integer token of `AMOUNT_PATTERN`: `(0|[1-9]\d*)`. -/
def isIntToken : Str → Bool
  | [] => false
  | c :: rest =>
    if rest.isEmpty then isDecDigit c
    else ('1' ≤ c && c ≤ '9') && rest.all isDecDigit

/-- `AMOUNT_PATTERN = /^(0|[1-9]\d*)(\.\d{1,18})?$/` (part_000 line 124,
solo-payout.ts line 26). -/
def amountPatternMatch (s : Str) : Bool :=
  match s.dropWhile (fun c => c ≠ '.') with
  | [] => isIntToken (dotSplitWhole s)
  | _ :: fp =>
    isIntToken (dotSplitWhole s) && fp.all isDecDigit &&
      decide (1 ≤ fp.length) && decide (fp.length ≤ 18)

/-- viem `parseUnits(value, 18)` on the inputs the code guards with
`AMOUNT_PATTERN` (non-negative, at most one dot, at most 18 fractional
digits, so the carry/rounding branch of the library is never taken):
split at the dot (fraction defaulting to `"0"`), trim trailing zeros,
right-pad the fraction to 18 digits and read the concatenation as an
integer. -/
def parseUnits18 (value : Str) : Nat :=
  let integer := dotSplitWhole value
  let fraction :=
    if (value.dropWhile (fun c => c ≠ '.')).isEmpty then ['0']
    else dotSplitFrac value
  let trimmed := trimTrailingZeros fraction
  strToNat (integer ++ (trimmed ++ List.replicate (18 - trimmed.length) '0'))

/-- viem `formatUnits(value, 18)` on non-negative values: render the
decimal digits, left-pad to 18 characters, split integer/fraction 18
characters from the right, trim trailing fractional zeros. -/
def formatUnits18 (value : Nat) : Str :=
  let display := natDecRepr value
  let padded := List.replicate (18 - display.length) '0' ++ display
  let integer := padded.take (padded.length - 18)
  let fraction := trimTrailingZeros (padded.drop (padded.length - 18))
  (if integer.isEmpty then ['0'] else integer) ++
    (if fraction.isEmpty then [] else '.' :: fraction)

/-- `SoloGameError` (part_000 lines 115-122). -/
structure SoloGameError where
  message : Str
  statusCode : Nat
deriving DecidableEq

/-- `parseAmount` (part_000 lines 161-172).  The source computes
`Number(value)` and only ever consumes the sign of the result; we model
the parsed value by the exact atto-scaled integer, for which
`Number(value) <= 0` coincides with `= 0` on `AMOUNT_PATTERN` matches
(every positive match is at least `1e-18`, which rounds to a positive
float). -/
def parseAmount (value : Str) (field : Str) : Except SoloGameError Nat :=
  if ¬ amountPatternMatch value then
    .error ⟨field ++ (" must be a decimal string with up to 18 decimals").data, 500⟩
  else
    let parsed := parseUnits18 value
    if parsed = 0 then
      .error ⟨field ++ (" must be greater than 0").data, 500⟩
    else
      .ok parsed

/-- `parseAmountToAtto` (part_000 lines 174-185). -/
def parseAmountToAtto (value : Str) (field : Str) : Except SoloGameError Nat :=
  if ¬ amountPatternMatch value then
    .error ⟨field ++ (" must be a decimal string with up to 18 decimals").data, 500⟩
  else
    let atto := parseUnits18 value
    if atto ≤ 0 then
      .error ⟨field ++ (" must be greater than 0").data, 500⟩
    else
      .ok atto

/-- `formatCrcAmount` (part_000 lines 187-192). -/
def formatCrcAmount (valueAtto : Nat) : Str :=
  let amount := formatUnits18 valueAtto
  let whole := dotSplitWhole amount
  let fraction := dotSplitFrac amount
  let trimmedFraction := trimTrailingZeros fraction
  if trimmedFraction.isEmpty then whole else whole ++ '.' :: trimmedFraction

/-- The round-trip target of the spec: the input amount string with
trailing fractional zeros (and a then-empty fraction's dot) removed.
This renders the spec's words, for comparison with the code's
`formatCrcAmount ∘ parseAmountToAtto`. -/
def trimAmountStr (s : Str) : Str :=
  match s.dropWhile (fun c => c ≠ '.') with
  | [] => s
  | _ :: fp =>
    let ft := trimTrailingZeros fp
    if ft.isEmpty then dotSplitWhole s else dotSplitWhole s ++ '.' :: ft

/-- `SoloMove` (types, part_000 line 33). -/
inductive SoloMove
  | heads
  | tails
deriving DecidableEq

/-- `SoloRoundStatus` (types, part_000 line 35). -/
inductive SoloRoundStatus
  | awaiting_payment
  | resolving
  | completed
deriving DecidableEq

/-- `SoloPaymentStatus` (types, part_000 line 37). -/
inductive SoloPaymentStatus
  | pending
  | paid
deriving DecidableEq

/-- `SoloOutcome` (types, part_000 line 39). -/
inductive SoloOutcome
  | win
  | lose
deriving DecidableEq

/-- `SoloPayoutStatus` (types, part_000 line 41). -/
inductive SoloPayoutStatus
  | pending
  | processing
  | paid
  | failed
  | skipped
deriving DecidableEq

/-- `SoloPayment` (types, part_000 lines 55-65).  The ready-to-submit
transaction payload arrays (`transactions`, `hostTransactions`) are
opaque to the lifecycle logic the claims concern and are omitted. -/
structure SoloPayment where
  status : SoloPaymentStatus
  recipientAddress : Str
  paymentLink : Str
  expectedData : Str
  amountCRC : Str
  transactionHash : Option Str := none
  paidAt : Option Str := none
deriving DecidableEq

/-- `SoloResult` (types, part_000 lines 67-71). -/
structure SoloResult where
  coin : SoloMove
  outcome : SoloOutcome
  resolvedAt : Str
deriving DecidableEq

/-- `SoloPayout` (types, part_000 lines 73-82). -/
structure SoloPayout where
  status : SoloPayoutStatus
  fromAddress : Str
  toAddress : Str
  amountCRC : Str
  txHash : Option Str := none
  error : Option Str := none
  processedAt : Option Str := none
  retryCount : Option Nat := none
deriving DecidableEq

/-- `SoloRound` (types, part_000 lines 84-95). -/
structure SoloRound where
  id : Str
  createdAt : Str
  updatedAt : Str
  playerAddress : Str
  move : SoloMove
  status : SoloRoundStatus
  payment : SoloPayment
  result : Option SoloResult := none
  payout : SoloPayout
  processingToken : Option Str := none
deriving DecidableEq

/-- JS string truthiness on an `undefined`-able string field. -/
def optTruthy (o : Option Str) : Bool :=
  match o with
  | some s => !s.isEmpty
  | none => false

/-- `CirclesTransferEvent` (circles.ts lines 4-13).  The TS field `from`
is a Lean keyword; it is rendered `fromAddress` (and `to` as `toAddress`,
`data` as `data`). -/
structure CirclesTransferEvent where
  transactionHash : Str
  fromAddress : Str
  toAddress : Str
  data : Str
  blockNumber : Str
  timestamp : Str
  transactionIndex : Str
  logIndex : Str
deriving DecidableEq

/-- `normalizeString` (circles.ts lines 129-131): `value.trim().toLowerCase()`. -/
def normalizeString (value : Str) : Str :=
  jsToLower (trimStr value)

/-- `normalizeHex` (circles.ts lines 133-146). -/
def normalizeHex (value : Str) : Option Str :=
  let trimmed := normalizeString value
  if trimmed.isEmpty then none
  else if trimmed.take 2 = ['\\', 'x'] then some ('0' :: 'x' :: trimmed.drop 2)
  else if trimmed.take 2 = ['0', 'x'] then some trimmed
  else if trimmed.all isLowerHexDigit then some ('0' :: 'x' :: trimmed)
  else none

/-- `normalizeAddress` (circles.ts lines 148-152). -/
def normalizeAddress (value : Str) : Option Str :=
  let trimmed := normalizeString value
  if trimmed.isEmpty then none
  else if trimmed.take 2 = ['0', 'x'] then some trimmed
  else some ('0' :: 'x' :: trimmed)

/-- `addressesMatch` (circles.ts lines 154-158). -/
def addressesMatch (a b : Str) : Bool :=
  match normalizeAddress a, normalizeAddress b with
  | some left, some right => left = right
  | _, _ => false

/-- UTF-8 encoding of one Unicode scalar value, as performed by JS
`TextEncoder` (Lean `Char` carries exactly the scalar values, so the
lone-surrogate replacement path of `TextEncoder` cannot arise). -/
def utf8EncodeChar (c : Char) : List Nat :=
  let n := c.toNat
  if n < 0x80 then [n]
  else if n < 0x800 then [0xC0 + n / 64, 0x80 + n % 64]
  else if n < 0x10000 then
    [0xE0 + n / 4096, 0x80 + n / 64 % 64, 0x80 + n % 64]
  else
    [0xF0 + n / 262144, 0x80 + n / 4096 % 64, 0x80 + n / 64 % 64, 0x80 + n % 64]

/-- JS `new TextEncoder().encode(value)` as a byte list. -/
def utf8Encode (s : Str) : List Nat :=
  s.flatMap utf8EncodeChar

/-- UTF-8 continuation byte test. -/
def utf8IsCont (b : Nat) : Bool :=
  0x80 ≤ b && b < 0xC0

/-- One decoding step of JS `new TextDecoder().decode` (default
non-fatal mode), on lead byte `b0` with remaining input `rest`:
well-formed sequences decode exactly; malformed input yields the
U+FFFD replacement character.  Only the well-formed path matters to
the theorems below; the exact resynchronization point after a
malformed sequence is simplified. -/
def utf8DecodeStep (b0 : Nat) (rest : List Nat) : Char × List Nat :=
  if b0 < 0x80 then (Char.ofNat b0, rest)
  else if b0 < 0xC2 then ('�', rest)
  else if b0 < 0xE0 then
    match rest with
    | b1 :: rest2 =>
      if utf8IsCont b1 then
        (Char.ofNat ((b0 - 0xC0) * 64 + (b1 - 0x80)), rest2)
      else ('�', rest2)
    | _ => ('�', [])
  else if b0 < 0xF0 then
    match rest with
    | b1 :: b2 :: rest3 =>
      let v := (b0 - 0xE0) * 4096 + (b1 - 0x80) * 64 + (b2 - 0x80)
      if utf8IsCont b1 && utf8IsCont b2 && decide (0x800 ≤ v) &&
          !(decide (0xD800 ≤ v) && decide (v < 0xE000)) then
        (Char.ofNat v, rest3)
      else ('�', rest3)
    | _ => ('�', [])
  else if b0 < 0xF5 then
    match rest with
    | b1 :: b2 :: b3 :: rest4 =>
      let v := (b0 - 0xF0) * 262144 + (b1 - 0x80) * 4096 +
        (b2 - 0x80) * 64 + (b3 - 0x80)
      if utf8IsCont b1 && utf8IsCont b2 && utf8IsCont b3 &&
          decide (0x10000 ≤ v) && decide (v < 0x110000) then
        (Char.ofNat v, rest4)
      else ('�', rest4)
    | _ => ('�', [])
  else ('�', rest)

/-- Decoding loop with explicit fuel; each step consumes at least one
byte, so the input length is always enough fuel. -/
def utf8DecodeGo : Nat → List Nat → Str
  | 0, _ => []
  | _ + 1, [] => []
  | fuel + 1, b0 :: rest =>
    (utf8DecodeStep b0 rest).1 ::
      utf8DecodeGo fuel (utf8DecodeStep b0 rest).2

/-- JS `new TextDecoder().decode(bytes)`. -/
def utf8Decode (l : List Nat) : Str :=
  utf8DecodeGo l.length l

/-- One byte rendered by JS `byte.toString(16).padStart(2, "0")`. -/
def byteToHexStr (b : Nat) : Str :=
  [digitToChar (b / 16), digitToChar (b % 16)]

/-- `utf8ToHex` (circles.ts lines 160-165). -/
def utf8ToHex (value : Str) : Str :=
  (utf8Encode value).flatMap byteToHexStr

/-- The byte list built by `hex.match(/.{1,2}/g).map(b => parseInt(b, 16))`
(chunks of two; callers guarantee even length). -/
def hexPairsToBytes : Str → List Nat
  | [] => []
  | [c] => [charDigitVal c]
  | c1 :: c2 :: rest => (16 * charDigitVal c1 + charDigitVal c2) :: hexPairsToBytes rest

/-- `hexToUtf8` (circles.ts lines 167-180). -/
def hexToUtf8 (hexValue : Str) : Option Str :=
  let hex := if hexValue.take 2 = ['0', 'x'] then hexValue.drop 2 else hexValue
  if hex.isEmpty || decide (hex.length % 2 ≠ 0) || !hex.all isHexDigitCI then none
  else some (utf8Decode (hexPairsToBytes hex))

/-- `eventMatchesData` (circles.ts lines 182-214).  The JS `Set` of
candidate encodings is modelled as a list queried by membership. -/
def eventMatchesData (dataField dataValue : Str) : Bool :=
  let target := normalizeString dataValue
  if target.isEmpty then false
  else
    let targetHex := utf8ToHex target
    let targetCandidates :=
      [target, targetHex, '0' :: 'x' :: targetHex] ++
        (if target.take 2 = ['0', 'x'] then [target.drop 2] else [])
    let eventRaw := normalizeString dataField
    if targetCandidates.contains eventRaw then true
    else
      match normalizeHex eventRaw with
      | none => false
      | some eventHex =>
        if targetCandidates.contains eventHex ||
            targetCandidates.contains (eventHex.drop 2) then true
        else
          match hexToUtf8 eventHex with
          | none => false
          | some eventUtf8 =>
            !eventUtf8.isEmpty &&
              targetCandidates.contains (normalizeString eventUtf8)

/-- `normalizeAddressKey` (part_000 lines 128-130). -/
def normalizeAddressKey (value : Str) : Str :=
  jsToLower (trimStr value)

/-- `toUnixSeconds` (part_000 lines 253-259).  `Date.parse` is a JS
builtin; it is passed in as `dateParse` (`none` models `NaN`). -/
def toUnixSeconds (dateParse : Str → Option Int) (value : Str) : Int :=
  match dateParse value with
  | none => 0
  | some ms => Int.fdiv ms 1000

/-- Result of `transferDataMatchState` (part_000 line 261); the TS value
`"match"` is rendered `matched` (`match` is a Lean keyword). -/
inductive TransferDataMatchState
  | matched
  | mismatch
  | missing
deriving DecidableEq

/-- One entry of a history row's embedded event list, after the
JSON-shape normalization of `parseTransactionEvents` (part_000 lines
263-286): the `$type ?? event` tag and the `Data ?? data` payload,
already coerced to strings.  Malformed JSON, non-array payloads and
non-object entries all normalize to an absent / shorter list. -/
structure TransferDataEventRec where
  eventType : Str
  dataField : Str
deriving DecidableEq

/-- `transferDataMatchState` (part_000 lines 288-307).  The source loop
returns `"match"` on the first matching `CrcV2_TransferData` entry and
`"mismatch"` if none of them matches, which is the `any` below. -/
def transferDataMatchState (events : List TransferDataEventRec)
    (expectedData : Str) : TransferDataMatchState :=
  let transferDataEvents :=
    events.filter (fun e => trimStr e.eventType = ("CrcV2_TransferData").data)
  if transferDataEvents.isEmpty then .missing
  else if transferDataEvents.any (fun e => eventMatchesData e.dataField expectedData) then
    .matched
  else .mismatch

/-- `TransactionHistoryRow` (the fields of the SDK row type the scan in
part_000 lines 309-368 reads).  `from`/`to` are Lean keywords and are
rendered `fromAddress`/`toAddress`; numeric fields are exact integers;
`attoCircles` may be absent (`row.attoCircles ?? BigInt(row.value)`);
`events` is the raw embedded event list after `parseTransactionEvents`
normalization (`none` when the field is absent or malformed). -/
structure TransactionHistoryRow where
  fromAddress : Str
  toAddress : Str
  transactionHash : Str
  timestamp : Int
  attoCircles : Option Nat
  value : Nat
  blockNumber : Nat
  transactionIndex : Nat
  logIndex : Nat
  events : Option (List TransferDataEventRec)
deriving DecidableEq

/-- The per-row acceptance test of the scan loop in
`findPaymentFromTransferHistory` (part_000 lines 327-348): a row is
skipped unless it has a transaction hash, matches the player → recipient
direction (lowercased equality), is not older than the round, carries at
least the entry fee, and — when an expected marker is configured — its
embedded events do not yield `mismatch`. -/
def historyRowQualifies (dateParse : Str → Option Int)
    (playerAddress recipientAddress : Str) (minAmountAtto : Nat)
    (createdAtIso : Str) (expectedData : Option Str)
    (row : TransactionHistoryRow) : Bool :=
  let createdAtSeconds := toUnixSeconds dateParse createdAtIso
  let targetFrom := jsToLower playerAddress
  let targetTo := jsToLower recipientAddress
  let amountAtto := row.attoCircles.getD row.value
  !row.transactionHash.isEmpty &&
    decide (jsToLower row.fromAddress = targetFrom) &&
    decide (jsToLower row.toAddress = targetTo) &&
    decide (createdAtSeconds ≤ row.timestamp) &&
    decide (minAmountAtto ≤ amountAtto) &&
    (match expectedData with
     | some ed =>
       if ed.isEmpty then true
       else decide (transferDataMatchState (row.events.getD []) ed ≠ .mismatch)
     | none => true)

/-- The record built from an accepted history row
(part_000 lines 350-359). -/
def historyRowToEvent (row : TransactionHistoryRow) : CirclesTransferEvent :=
  { transactionHash := row.transactionHash
    fromAddress := jsToLower row.fromAddress
    toAddress := jsToLower row.toAddress
    data := []
    blockNumber := natDecRepr row.blockNumber
    timestamp := intDecRepr row.timestamp
    transactionIndex := natDecRepr row.transactionIndex
    logIndex := natDecRepr row.logIndex }

/-- `findPaymentFromTransferHistory` (part_000 lines 309-368).  The
paginated query is modelled as the page list it would yield in order;
the loop scans at most 5 pages (`scannedPages < 5`), stops early when a
page reports no further pages (list exhaustion), and returns the first
qualifying row in page-major, row-minor order — i.e. the first
qualifying element of the flattened 5-page window. -/
def findPaymentFromTransferHistory (dateParse : Str → Option Int)
    (pages : List (List TransactionHistoryRow))
    (playerAddress recipientAddress : Str) (minAmountAtto : Nat)
    (createdAtIso : Str) (expectedData : Option Str) :
    Option CirclesTransferEvent :=
  (((pages.take 5).flatten).find?
    (historyRowQualifies dateParse playerAddress recipientAddress
      minAmountAtto createdAtIso expectedData)).map historyRowToEvent

/-- `buildMoveData` (part_000 lines 370-372). -/
def buildMoveData (roundId : Str) (move : SoloMove) (playerAddress : Str) : Str :=
  ("solo-move:").data ++ roundId ++ [':'] ++
    (match move with
     | .heads => ("heads").data
     | .tails => ("tails").data) ++ [':'] ++ jsToLower playerAddress

/-- JS `haystack.includes(needle)` on lists of characters. -/
def strContainsSub : Str → Str → Bool
  | l, sub =>
    if sub = l.take sub.length then true
    else
      match l with
      | [] => false
      | _ :: rest => strContainsSub rest sub

/-- `shouldRetryLegacyPayout` (part_000 lines 374-393). -/
def shouldRetryLegacyPayout (round : SoloRound) : Bool :=
  decide (round.status = .completed) &&
    (match round.result with
     | some res => decide (res.outcome = .win)
     | none => false) &&
    decide (round.payout.status = .failed) &&
    !optTruthy round.payout.txHash &&
    decide (round.payout.retryCount.getD 0 < 1) &&
    (let payoutError := jsToLower (round.payout.error.getD [])
     strContainsSub payoutError ("direct transfer").data ||
       strContainsSub payoutError ("execution reverted for an unknown reason").data)

/-- The updater passed to `updateSoloRound` for the conditional
`awaiting_payment → resolving` claim transition
(part_000 lines 582-604). -/
def claimUpdater (claimToken nowIso paymentHash : Str) (round : SoloRound) :
    SoloRound :=
  if round.status ≠ .awaiting_payment then round
  else
    { round with
      status := .resolving
      updatedAt := nowIso
      processingToken := some claimToken
      payment := { round.payment with
        status := .paid
        transactionHash := some paymentHash
        paidAt := some nowIso }
      payout := { round.payout with
        status := .processing
        processedAt := some nowIso } }

/-- The updater passed to `updateSoloRound` for the token-guarded
finalization to `completed` (part_000 lines 639-656). -/
def finalizeUpdater (claimToken : Str) (coin : SoloMove) (outcome : SoloOutcome)
    (resolvedAt nowIso : Str) (payout : SoloPayout) (round : SoloRound) :
    SoloRound :=
  if round.processingToken ≠ some claimToken then round
  else
    { round with
      status := .completed
      updatedAt := nowIso
      processingToken := none
      result := some { coin := coin, outcome := outcome, resolvedAt := resolvedAt }
      payout := payout }

/-- The updater passed to `updateSoloRound` on the legacy-payout retry
path (part_000 lines 525-538). -/
def retryUpdater (payout : SoloPayout) (nowIso : Str) (round : SoloRound) :
    SoloRound :=
  if ¬ shouldRetryLegacyPayout round then round
  else
    { round with
      updatedAt := nowIso
      payout := { payout with
        retryCount := some (round.payout.retryCount.getD 0 + 1) } }

/-- `randomInt(0, 10) === 0` (part_000 line 614): the draw is a uniform
integer in `[0, 10)`, passed in explicitly. -/
def resolveIsWin (draw : Nat) : Bool :=
  draw = 0

/-- The resolved outcome (part_000 line 615). -/
def resolvedOutcome (draw : Nat) : SoloOutcome :=
  if resolveIsWin draw then .win else .lose

/-- The resolved coin face (part_000 lines 616-620). -/
def resolvedCoin (draw : Nat) (move : SoloMove) : SoloMove :=
  if resolveIsWin draw then move
  else match move with
    | .heads => .tails
    | .tails => .heads

/-- The external effects one `processSoloRoundLifecycle` invocation
consumes, passed as oracles: the two payment-detection results (each of
which may fail, modelling a rejected RPC promise), the fresh claim token
(`randomUUID()`), the random draw (`randomInt(0, 10)`), the
`payoutSoloWinner` result used on the win and legacy-retry paths, and
the clock. -/
structure LifecycleEnv where
  eventDetect : Except Str (Option CirclesTransferEvent)
  historyDetect : Except Str (Option CirclesTransferEvent)
  claimToken : Str
  draw : Nat
  payoutResult : SoloPayout
  nowIso : Str

/-- `processSoloRoundLifecycle` (part_000 lines 507-659) for a round that
exists in the store, as a single sequential invocation: the round-store
read-modify-write updates are applied to the current round (the
interleaved two-poller behaviour of the same updaters is modelled
separately by `raceRun`). -/
def processSoloRoundLifecycle (env : LifecycleEnv) (current : SoloRound) :
    Except SoloGameError SoloRound :=
  match current.status with
  | .completed =>
    if ¬ shouldRetryLegacyPayout current then .ok current
    else .ok (retryUpdater env.payoutResult env.nowIso current)
  | .resolving => .ok current
  | .awaiting_payment => do
    let _ ← parseAmount current.payment.amountCRC ("payment.amountCRC").data
    let _ ← parseAmountToAtto current.payment.amountCRC ("payment.amountCRC").data
    let fromEvents : Option CirclesTransferEvent :=
      match env.eventDetect with
      | .ok p => p
      | .error _ => none
    let payment : Option CirclesTransferEvent :=
      match fromEvents with
      | some p => some p
      | none =>
        match env.historyDetect with
        | .ok p => p
        | .error _ => none
    match payment with
    | none => .ok current
    | some pay =>
      let claimed := claimUpdater env.claimToken env.nowIso pay.transactionHash current
      if claimed.processingToken ≠ some env.claimToken then .ok claimed
      else
        let outcome := resolvedOutcome env.draw
        let coin := resolvedCoin env.draw claimed.move
        let payout :=
          if outcome = .win then env.payoutResult
          else
            { claimed.payout with
              status := .skipped
              error := some ("Round lost. No payout.").data
              processedAt := some env.nowIso }
        .ok (finalizeUpdater env.claimToken coin outcome env.nowIso env.nowIso
          payout claimed)

/-- The per-poller data of one concurrent `processSoloRoundLifecycle`
invocation that has already observed an `awaiting_payment` round and a
qualifying payment: its fresh claim token, clock value, the payment hash
it found, and the resolution it would write. -/
structure PollerCtx where
  token : Str
  nowIso : Str
  payHash : Str
  coin : SoloMove
  outcome : SoloOutcome
  payout : SoloPayout

/-- State of the two-poller interleaving: the stored round plus each
poller's program counter (0 = about to run the claim update, 1 = claim
update done, 2 = finished) and whether its claim-token check succeeded
(part_000 line 610: `claimed.processingToken !== claimToken` means stop). -/
structure RaceState where
  store : SoloRound
  pcA : Nat
  proceedA : Bool
  pcB : Nat
  proceedB : Bool

/-- One atomic store update by poller `A` (`who = true`) or `B`
(`who = false`): the claim update returns the post-update stored round,
from which the poller computes its token check; the finalize update runs
only for a poller whose check succeeded. -/
def raceStep (pa pb : PollerCtx) (who : Bool) (s : RaceState) : RaceState :=
  if who then
    match s.pcA with
    | 0 =>
      let stored := claimUpdater pa.token pa.nowIso pa.payHash s.store
      { s with
        store := stored
        pcA := 1
        proceedA := decide (stored.processingToken = some pa.token) }
    | 1 =>
      if s.proceedA then
        { s with
          store := finalizeUpdater pa.token pa.coin pa.outcome pa.nowIso
            pa.nowIso pa.payout s.store
          pcA := 2 }
      else { s with pcA := 2 }
    | _ => s
  else
    match s.pcB with
    | 0 =>
      let stored := claimUpdater pb.token pb.nowIso pb.payHash s.store
      { s with
        store := stored
        pcB := 1
        proceedB := decide (stored.processingToken = some pb.token) }
    | 1 =>
      if s.proceedB then
        { s with
          store := finalizeUpdater pb.token pb.coin pb.outcome pb.nowIso
            pb.nowIso pb.payout s.store
          pcB := 2 }
      else { s with pcB := 2 }
    | _ => s

/-- Run the two pollers against the shared round under an arbitrary
interleaving: `sched` names which poller performs its next atomic store
update at each turn (steps of a finished poller are no-ops, so every
interleaving is covered by some schedule). -/
def raceRun (pa pb : PollerCtx) (sched : List Bool) (r0 : SoloRound) : RaceState :=
  sched.foldl (fun s w => raceStep pa pb w s)
    { store := r0, pcA := 0, proceedA := false, pcB := 0, proceedB := false }

/-- The inductive invariant of the two-poller interleaving: a poller that
has not yet run its claim update cannot have proceeded and its fresh
token is not yet in the store; a round still `awaiting_payment` carries
no token and nobody has proceeded; and the two pollers never both
proceed. -/
def raceInv (pa pb : PollerCtx) (s : RaceState) : Prop :=
  (s.pcA = 0 → s.proceedA = false ∧ s.store.processingToken ≠ some pa.token) ∧
  (s.pcB = 0 → s.proceedB = false ∧ s.store.processingToken ≠ some pb.token) ∧
  (s.store.status = .awaiting_payment →
    s.store.processingToken = none ∧ s.proceedA = false ∧ s.proceedB = false) ∧
  ¬(s.proceedA = true ∧ s.proceedB = true)

/-- `SoloStoreConflictError` (imported by part_000 line 109 from the
round store module). -/
inductive SoloStoreConflictError
  | conflict
deriving DecidableEq

/-- A round counts against the single-active-round constraint iff its
status is not `completed`. -/
def roundActive (r : SoloRound) : Bool :=
  decide (r.status ≠ .completed)

/-- Modelled from the spec: the store-level `create`.  The provided
store source (part_010 `createSoloRoundRecord`, lines 162-180) performs
a bare insert and relies on the backing database's partial unique index
`solo_rounds_one_active_per_player_idx` on `lower(playerAddress)` scoped
to non-`completed` rounds (README, lines 117-130); the mapping of that
index violation to `SoloStoreConflictError` is not among the provided
sources.  Following the spec, an insert fails atomically with
`SoloStoreConflictError` exactly when the inserted round is
non-`completed` and a non-`completed` round with the same lowercased
player address is already stored. -/
def createSoloRoundRecord (store : List SoloRound) (round : SoloRound) :
    Except SoloStoreConflictError (List SoloRound) :=
  if roundActive round &&
      store.any (fun r => roundActive r &&
        decide (normalizeAddressKey r.playerAddress =
          normalizeAddressKey round.playerAddress)) then
    .error .conflict
  else
    .ok (round :: store)

/-- A sequence of store-level create calls, executed in the order the
backing store serializes them; each call reports success (the created
round) or the conflict failure, and the store state threads through. -/
def runCreateCalls (calls : List SoloRound) (store : List SoloRound) :
    List (Except SoloStoreConflictError SoloRound) × List SoloRound :=
  match calls with
  | [] => ([], store)
  | r :: rest =>
    match createSoloRoundRecord store r with
    | .error e =>
      let (results, final) := runCreateCalls rest store
      (.error e :: results, final)
    | .ok store2 =>
      let (results, final) := runCreateCalls rest store2
      (.ok r :: results, final)

/-- Number of non-`completed` rounds stored for normalized player key `p`. -/
def activeRoundsFor (p : Str) (store : List SoloRound) : Nat :=
  (store.filter (fun r => roundActive r &&
    decide (normalizeAddressKey r.playerAddress = p))).length

/-- Number of successful results among create-call outcomes. -/
def countOk (results : List (Except SoloStoreConflictError SoloRound)) : Nat :=
  (results.filter (fun r => r.isOk)).length

/-- viem transaction receipt status (`"success" | "reverted"`). -/
inductive ReceiptStatus
  | success
  | reverted
deriving DecidableEq

/-- The part of a viem `TransactionReceipt` the payout code reads. -/
structure TransactionReceipt where
  status : ReceiptStatus
  transactionHash : Str
deriving DecidableEq

/-- The submission loop of `createEoaContractRunner`'s `sendTransaction`
(solo-payout.ts lines 168-272): each list entry is the outcome of
submitting one payload and awaiting its receipt (an entry is `error`
when signing/simulation/submission/waiting itself threw).  No payloads
throws; a receipt with status other than `success` throws
`Payout transaction reverted`; otherwise the last receipt is returned. -/
def sendTransactionRun :
    List (Except Str TransactionReceipt) → Except Str TransactionReceipt
  | [] => .error ("No transaction payload provided").data
  | .error e :: _ => .error e
  | .ok receipt :: rest =>
    if receipt.status ≠ .success then
      .error (("Payout transaction reverted: ").data ++ receipt.transactionHash)
    else
      match rest with
      | [] => .ok receipt
      | _ :: _ => sendTransactionRun rest

/-- `normalizePrivateKey` (solo-payout.ts lines 93-101):
`/^0x[0-9a-fA-F]{64}$/` after optionally prefixing `0x`. -/
def normalizePrivateKey (rawKey : Str) : Except Str Str :=
  let candidate := if rawKey.take 2 = ['0', 'x'] then rawKey else '0' :: 'x' :: rawKey
  if decide (candidate.length = 66) && (candidate.drop 2).all isHexDigitCI then
    .ok candidate
  else
    .error ("CIRCLES_ORG_PRIVATE_KEY must be a 32-byte hex string").data

/-- The private `parseAmountToAtto` of solo-payout.ts (lines 103-114),
which throws plain `Error`s. -/
def parseAmountToAttoPayout (amountCRC : Str) : Except Str Nat :=
  if ¬ amountPatternMatch amountCRC then
    .error ("Amount must be a decimal string with up to 18 decimals").data
  else
    let amountAtto := parseUnits18 amountCRC
    if amountAtto ≤ 0 then
      .error ("Amount must be greater than 0").data
    else
      .ok amountAtto

/-- The environment configuration `payoutSoloWinner` reads
(`process.env.CIRCLES_ORG_AVATAR_ADDRESS`, `CIRCLES_ORG_PRIVATE_KEY`):
`none` models an unset variable; the code treats `""` like unset
(JS truthiness). -/
structure PayoutEnvCfg where
  orgAvatarAddress : Option Str
  privateKey : Option Str

/-- The external chain collaborators of one `payoutSoloWinner` call:
viem's `isAddress` validator, the outcome of `sdk.getAvatar`, and the
per-payload submission outcomes `runner.sendTransaction` will observe
when `orgAvatar.transfer.advanced` submits. -/
structure PayoutChain where
  isAddress : Str → Bool
  avatarLookup : Except Str Unit
  txOutcomes : List (Except Str TransactionReceipt)

/-- The `try` block of `payoutSoloWinner` (solo-payout.ts lines 384-414):
key normalization, runner construction (pure), avatar lookup, amount
parsing, transfer submission; yields the transaction hash read off the
returned receipt (`receipt.transactionHash || receipt.hash`). -/
def payoutAttemptRun (chain : PayoutChain) (privateKeyRaw amountCRC : Str) :
    Except Str Str := do
  let _ ← normalizePrivateKey privateKeyRaw
  let _ ← chain.avatarLookup
  let _ ← parseAmountToAttoPayout amountCRC
  let receipt ← sendTransactionRun chain.txOutcomes
  pure receipt.transactionHash

/-- `payoutSoloWinner` (solo-payout.ts lines 337-425). -/
def payoutSoloWinner (cfg : PayoutEnvCfg) (chain : PayoutChain)
    (winnerAddress amountCRC nowIso : Str) : SoloPayout :=
  if !optTruthy cfg.orgAvatarAddress || !optTruthy cfg.privateKey then
    { status := .skipped
      fromAddress := cfg.orgAvatarAddress.getD ("not-configured").data
      toAddress := winnerAddress
      amountCRC := amountCRC
      error := some ("Missing CIRCLES_ORG_AVATAR_ADDRESS or CIRCLES_ORG_PRIVATE_KEY").data
      processedAt := some nowIso }
  else
    let orgAvatarAddress := cfg.orgAvatarAddress.getD []
    if ¬ chain.isAddress orgAvatarAddress then
      { status := .failed
        fromAddress := orgAvatarAddress
        toAddress := winnerAddress
        amountCRC := amountCRC
        error := some ("CIRCLES_ORG_AVATAR_ADDRESS is invalid").data
        processedAt := some nowIso }
    else if ¬ chain.isAddress winnerAddress then
      { status := .failed
        fromAddress := orgAvatarAddress
        toAddress := winnerAddress
        amountCRC := amountCRC
        error := some ("Winner address is invalid").data
        processedAt := some nowIso }
    else
      match payoutAttemptRun chain (cfg.privateKey.getD []) amountCRC with
      | .ok txHash =>
        { status := .paid
          fromAddress := orgAvatarAddress
          toAddress := winnerAddress
          amountCRC := amountCRC
          txHash := some txHash
          processedAt := some nowIso }
      | .error e =>
        { status := .failed
          fromAddress := orgAvatarAddress
          toAddress := winnerAddress
          amountCRC := amountCRC
          error := some e
          processedAt := some nowIso }

/-- A concrete `awaiting_payment` round used by the closed witness
instances below. -/
def sampleAwaitingRound : SoloRound :=
  { id := ("r-0001").data
    createdAt := ("2026-01-01T00:00:00.000Z").data
    updatedAt := ("2026-01-01T00:00:00.000Z").data
    playerAddress := ("0xAb01").data
    move := .heads
    status := .awaiting_payment
    payment :=
      { status := .pending
        recipientAddress := ("0xOrg1").data
        paymentLink := ("link").data
        expectedData := ("solo-move:r-0001:heads:0xab01").data
        amountCRC := ("1").data }
    payout :=
      { status := .pending
        fromAddress := ("0xOrg1").data
        toAddress := ("0xAb01").data
        amountCRC := ("2").data } }

/-- A concrete `completed`/`win` round whose payout failed with a
known-transient error, used by the closed witness instances below. -/
def sampleLegacyRound : SoloRound :=
  { id := ("r-0002").data
    createdAt := ("2026-01-01T00:00:00.000Z").data
    updatedAt := ("2026-01-01T00:05:00.000Z").data
    playerAddress := ("0xAb01").data
    move := .tails
    status := .completed
    payment :=
      { status := .paid
        recipientAddress := ("0xOrg1").data
        paymentLink := ("link").data
        expectedData := ("solo-move:r-0002:tails:0xab01").data
        amountCRC := ("1").data }
    result := some
      { coin := .tails
        outcome := .win
        resolvedAt := ("2026-01-01T00:05:00.000Z").data }
    payout :=
      { status := .failed
        fromAddress := ("0xOrg1").data
        toAddress := ("0xAb01").data
        amountCRC := ("2").data
        error := some ("Avatar does not support direct transfer of wrapped balances").data } }

/-- A concrete lifecycle environment in which both detection paths come
back empty-handed (the event feed errors, the history scan finds
nothing), used by the closed witness instances below. -/
def sampleQuietEnv : LifecycleEnv :=
  { eventDetect := .error ("rpc unavailable").data
    historyDetect := .ok none
    claimToken := ("token-a").data
    draw := 3
    payoutResult :=
      { status := .paid
        fromAddress := ("0xOrg1").data
        toAddress := ("0xAb01").data
        amountCRC := ("2").data
        txHash := some ("0xhash").data }
    nowIso := ("2026-01-01T00:01:00.000Z").data }

/-- A concrete history row whose embedded event list is absent, used by
the closed instances below: it matches direction, amount and time but
carries no `CrcV2_TransferData` events at all. -/
def sampleHistoryRow : TransactionHistoryRow :=
  { fromAddress := ("0xAB01").data
    toAddress := ("0xorg1").data
    transactionHash := ("0xdead").data
    timestamp := 100
    attoCircles := some 1000000000000000000
    value := 0
    blockNumber := 7
    transactionIndex := 1
    logIndex := 2
    events := none }

/-- A concrete `Date.parse` oracle mapping every string to the epoch. -/
def sampleDateParse : Str → Option Int :=
  fun _ => some 0

/-- The expected marker used by the closed history-scan instances. -/
def sampleExpectedData : Option Str :=
  some (("solo-move:r-0001:heads:0xab01").data)

/-- Position of a status in the forward order
`awaiting_payment < resolving < completed`. -/
def statusRank (s : SoloRoundStatus) : Nat :=
  match s with
  | .awaiting_payment => 0
  | .resolving => 1
  | .completed => 2

theorem digitsLE_eq_digits (fuel n : Nat) (h : n ≤ fuel) :
    digitsLE fuel n = Nat.digits 10 n := by
  induction fuel generalizing n with
  | zero =>
    have : n = 0 := Nat.le_zero.mp h
    subst this
    simp [digitsLE]
  | succ f ih =>
    by_cases hn : n = 0
    · subst hn; simp [digitsLE]
    · have hpos : 0 < n := Nat.pos_of_ne_zero hn
      rw [digitsLE, if_neg hn, Nat.digits_def' (by norm_num : (1:Nat) < 10) hpos,
        ih (n / 10) (by omega)]

/-- Claim C5: in resolution, the outcome is `win` if and only if the
uniform random draw over `[0, 10)` equals 0 (1-in-10 odds); on `win` the
resolved coin face equals the player's chosen move, and on `lose` it is
the opposite face. -/
theorem c5_outcome_coin_consistency (draw : Nat) (move : SoloMove)
    (_h : draw < 10) :
    (resolvedOutcome draw = .win ↔ draw = 0) ∧
    (resolvedOutcome draw = .win → resolvedCoin draw move = move) ∧
    (resolvedOutcome draw = .lose →
      resolvedCoin draw move =
        (match move with | .heads => .tails | .tails => .heads)) := by
  unfold resolvedOutcome resolvedCoin resolveIsWin
  by_cases hz : draw = 0 <;> cases move <;> simp [hz]

/-- Closed instance of `c5_outcome_coin_consistency` at draw 3, move heads. -/
theorem c5_outcome_coin_consistency_witness :
    (3 < 10) ∧
    ((resolvedOutcome 3 = .win ↔ 3 = 0) ∧
     (resolvedOutcome 3 = .win → resolvedCoin 3 .heads = .heads) ∧
     (resolvedOutcome 3 = .lose →
       resolvedCoin 3 .heads =
         (match SoloMove.heads with | .heads => .tails | .tails => .heads))) :=
  ⟨by decide, c5_outcome_coin_consistency 3 .heads (by decide)⟩

/-- Claim C6: for an `awaiting_payment` round (with the well-formed fee
string every created round carries), if neither detection path yields a
qualifying payment — including when either query fails with an error —
`processSoloRoundLifecycle` returns the round unchanged, still
`awaiting_payment`, and no detection error is propagated. -/
theorem c6_detection_failures_swallowed (env : LifecycleEnv) (r : SoloRound)
    (hst : r.status = .awaiting_payment)
    (hpat : amountPatternMatch r.payment.amountCRC = true)
    (hpos : parseUnits18 r.payment.amountCRC ≠ 0)
    (hev : ∀ p, env.eventDetect ≠ .ok (some p))
    (hhi : ∀ p, env.historyDetect ≠ .ok (some p)) :
    processSoloRoundLifecycle env r = .ok r ∧ r.status = .awaiting_payment := by
  refine ⟨?_, hst⟩
  unfold processSoloRoundLifecycle
  rw [hst]
  have hparse : parseAmount r.payment.amountCRC ("payment.amountCRC").data =
      .ok (parseUnits18 r.payment.amountCRC) := by
    unfold parseAmount
    rw [if_neg (by simp [hpat]), if_neg hpos]
  have hparse2 : parseAmountToAtto r.payment.amountCRC ("payment.amountCRC").data =
      .ok (parseUnits18 r.payment.amountCRC) := by
    unfold parseAmountToAtto
    rw [if_neg (by simp [hpat]), if_neg (by omega)]
  have hev2 : (match env.eventDetect with
      | .ok p => p
      | .error _ => none) = (none : Option CirclesTransferEvent) := by
    cases h : env.eventDetect with
    | ok p =>
      cases p with
      | some q => exact absurd h (hev q)
      | none => rfl
    | error e => rfl
  have hhi2 : (match env.historyDetect with
      | .ok p => p
      | .error _ => none) = (none : Option CirclesTransferEvent) := by
    cases h : env.historyDetect with
    | ok p =>
      cases p with
      | some q => exact absurd h (hhi q)
      | none => rfl
    | error e => rfl
  simp only [hparse, hparse2, hev2, hhi2]
  rfl

/-- Closed instance of `c6_detection_failures_swallowed` on a concrete
`awaiting_payment` round with both detection paths empty/erroring. -/
theorem c6_detection_failures_swallowed_witness :
    processSoloRoundLifecycle sampleQuietEnv sampleAwaitingRound =
      .ok sampleAwaitingRound ∧
    sampleAwaitingRound.status = .awaiting_payment :=
  c6_detection_failures_swallowed sampleQuietEnv sampleAwaitingRound
    (by decide) (by decide) (by decide)
    (fun p => by simp [sampleQuietEnv])
    (fun p => by simp [sampleQuietEnv])

/-- Claim C9: an already-`completed` round is re-processed for payout iff
its result outcome is `win`, its payout is `failed` with no transaction
hash, its retry counter is 0 or unset, and its payout error contains one
of the known transient-failure substrings; such a round is retried
exactly once — `retryCount` is incremented regardless of the new payout
attempt's outcome, so a further `processSoloRoundLifecycle` call never
retries it again. -/
theorem c9_legacy_retry_exactly_once (env env2 : LifecycleEnv) (r : SoloRound)
    (hst : r.status = .completed) :
    (shouldRetryLegacyPayout r = true ↔
      (r.status = .completed ∧
       (∃ res, r.result = some res ∧ res.outcome = .win) ∧
       r.payout.status = .failed ∧
       optTruthy r.payout.txHash = false ∧
       r.payout.retryCount.getD 0 = 0 ∧
       (strContainsSub (jsToLower (r.payout.error.getD []))
          ("direct transfer").data = true ∨
        strContainsSub (jsToLower (r.payout.error.getD []))
          ("execution reverted for an unknown reason").data = true))) ∧
    (shouldRetryLegacyPayout r = false →
      processSoloRoundLifecycle env r = .ok r) ∧
    (shouldRetryLegacyPayout r = true →
      processSoloRoundLifecycle env r =
        .ok (retryUpdater env.payoutResult env.nowIso r) ∧
      (retryUpdater env.payoutResult env.nowIso r).payout.retryCount =
        some (r.payout.retryCount.getD 0 + 1) ∧
      shouldRetryLegacyPayout (retryUpdater env.payoutResult env.nowIso r) = false ∧
      processSoloRoundLifecycle env2 (retryUpdater env.payoutResult env.nowIso r) =
        .ok (retryUpdater env.payoutResult env.nowIso r)) := by
  refine ⟨?_, ?_, ?_⟩
  · unfold shouldRetryLegacyPayout
    cases hres : r.result with
    | none => simp [hres, hst]
    | some res =>
      simp [hres, hst, Nat.lt_one_iff, and_assoc]
  · intro h
    unfold processSoloRoundLifecycle
    rw [hst]
    simp [h]
  · intro h
    have hupd : retryUpdater env.payoutResult env.nowIso r =
        { r with
          updatedAt := env.nowIso
          payout := { env.payoutResult with
            retryCount := some (r.payout.retryCount.getD 0 + 1) } } := by
      unfold retryUpdater
      rw [if_neg (by simp [h])]
    refine ⟨?_, ?_, ?_, ?_⟩
    · unfold processSoloRoundLifecycle
      rw [hst]
      simp [h]
    · rw [hupd]
    · rw [hupd]
      unfold shouldRetryLegacyPayout
      simp
    · have hstatus : (retryUpdater env.payoutResult env.nowIso r).status = .completed := by
        rw [hupd]; exact hst
      have hnoretry : shouldRetryLegacyPayout
          (retryUpdater env.payoutResult env.nowIso r) = false := by
        rw [hupd]
        unfold shouldRetryLegacyPayout
        simp
      unfold processSoloRoundLifecycle
      rw [hstatus]
      simp [hnoretry]

/-- Closed instance of `c9_legacy_retry_exactly_once` on a concrete
eligible `completed`/`win` round: it is retried, and the retried round is
no longer eligible. -/
theorem c9_legacy_retry_exactly_once_witness :
    shouldRetryLegacyPayout sampleLegacyRound = true ∧
    processSoloRoundLifecycle sampleQuietEnv sampleLegacyRound =
      .ok (retryUpdater sampleQuietEnv.payoutResult sampleQuietEnv.nowIso
        sampleLegacyRound) ∧
    shouldRetryLegacyPayout
      (retryUpdater sampleQuietEnv.payoutResult sampleQuietEnv.nowIso
        sampleLegacyRound) = false :=
  have h := c9_legacy_retry_exactly_once sampleQuietEnv sampleQuietEnv
    sampleLegacyRound (by decide)
  have ht : shouldRetryLegacyPayout sampleLegacyRound = true := by decide
  ⟨ht, (h.2.2 ht).1, (h.2.2 ht).2.2.1⟩

/-- Claim C10: no updater the lifecycle engine passes to the round store
ever regresses the status order `awaiting_payment < resolving <
completed`: the claim updater only moves `awaiting_payment` to
`resolving` (and is the identity otherwise); the finalize updater — on
any round satisfying the engine's invariant that a processing token is
only present while `resolving` — only moves `resolving` to `completed`
(and is the identity otherwise); the legacy-retry updater keeps the
status (`completed` whenever it fires) and changes only the payout
sub-record and `updatedAt`. -/
theorem c10_status_monotonic :
    (∀ (token nowIso payHash : Str) (r : SoloRound),
      statusRank r.status ≤ statusRank (claimUpdater token nowIso payHash r).status ∧
      (r.status = .awaiting_payment →
        (claimUpdater token nowIso payHash r).status = .resolving) ∧
      (r.status ≠ .awaiting_payment → claimUpdater token nowIso payHash r = r)) ∧
    (∀ (token : Str) (coin : SoloMove) (outcome : SoloOutcome)
        (resolvedAt nowIso : Str) (payout : SoloPayout) (r : SoloRound),
      (r.status ≠ .resolving → r.processingToken = none) →
      statusRank r.status ≤
        statusRank (finalizeUpdater token coin outcome resolvedAt nowIso payout r).status ∧
      (r.status = .resolving ∧ r.processingToken = some token →
        (finalizeUpdater token coin outcome resolvedAt nowIso payout r).status =
          .completed) ∧
      (r.processingToken ≠ some token →
        finalizeUpdater token coin outcome resolvedAt nowIso payout r = r) ∧
      (r.status = .completed →
        (finalizeUpdater token coin outcome resolvedAt nowIso payout r).status =
          .completed)) ∧
    (∀ (payout : SoloPayout) (nowIso : Str) (r : SoloRound),
      (retryUpdater payout nowIso r).status = r.status ∧
      (shouldRetryLegacyPayout r = true → r.status = .completed) ∧
      (retryUpdater payout nowIso r).id = r.id ∧
      (retryUpdater payout nowIso r).createdAt = r.createdAt ∧
      (retryUpdater payout nowIso r).playerAddress = r.playerAddress ∧
      (retryUpdater payout nowIso r).move = r.move ∧
      (retryUpdater payout nowIso r).payment = r.payment ∧
      (retryUpdater payout nowIso r).result = r.result ∧
      (retryUpdater payout nowIso r).processingToken = r.processingToken ∧
      (shouldRetryLegacyPayout r = false → retryUpdater payout nowIso r = r)) := by
  refine ⟨?_, ?_, ?_⟩
  · intro token nowIso payHash r
    unfold claimUpdater
    by_cases hst : r.status = .awaiting_payment
    · rw [if_neg (by simp [hst])]
      simp [hst, statusRank]
    · rw [if_pos hst]
      simp [hst]
  · intro token coin outcome resolvedAt nowIso payout r hwf
    unfold finalizeUpdater
    by_cases htok : r.processingToken = some token
    · rw [if_neg (by simp [htok])]
      have hres : r.status = .resolving := by
        by_contra hne
        rw [hwf hne] at htok
        exact Option.noConfusion htok
      exact ⟨by simp [hres, statusRank], fun _ => rfl, fun hcon => absurd htok hcon,
        fun _ => rfl⟩
    · rw [if_pos htok]
      refine ⟨le_refl _, ?_, fun _ => rfl, fun h => h⟩
      intro hcon
      exact absurd hcon.2 htok
  · intro payout nowIso r
    unfold retryUpdater
    by_cases hretry : shouldRetryLegacyPayout r = true
    · rw [if_neg (by simp [hretry])]
      have hcomp : r.status = .completed := by
        unfold shouldRetryLegacyPayout at hretry
        rcases Bool.and_eq_true_iff.mp hretry with ⟨h1, _⟩
        rcases Bool.and_eq_true_iff.mp h1 with ⟨h2, _⟩
        rcases Bool.and_eq_true_iff.mp h2 with ⟨h3, _⟩
        rcases Bool.and_eq_true_iff.mp h3 with ⟨h4, _⟩
        rcases Bool.and_eq_true_iff.mp h4 with ⟨h5, _⟩
        exact of_decide_eq_true h5
      simp [hretry, hcomp]
    · rw [if_pos (by simpa using hretry)]
      simp [hretry]

/-- Closed instance of `c10_status_monotonic`: the claim updater advances
a concrete `awaiting_payment` round to `resolving`; the finalize updater
leaves a round without a matching token untouched; the retry updater
preserves the status of a concrete `completed` round. -/
theorem c10_status_monotonic_witness :
    (claimUpdater ("token-a").data ("now").data ("0xh").data
      sampleAwaitingRound).status = .resolving ∧
    finalizeUpdater ("token-a").data .heads .win ("now").data ("now").data
      sampleAwaitingRound.payout sampleAwaitingRound = sampleAwaitingRound ∧
    (retryUpdater sampleQuietEnv.payoutResult ("now").data
      sampleLegacyRound).status = sampleLegacyRound.status :=
  have h := c10_status_monotonic
  ⟨(h.1 ("token-a").data ("now").data ("0xh").data sampleAwaitingRound).2.1
      (by decide),
   ((h.2.1 ("token-a").data .heads .win ("now").data ("now").data
      sampleAwaitingRound.payout sampleAwaitingRound
      (fun _ => by decide)).2.2.1 (by decide)),
   (h.2.2 sampleQuietEnv.payoutResult ("now").data sampleLegacyRound).1⟩

theorem activeRoundsFor_cons (p : Str) (r : SoloRound) (store : List SoloRound) :
    activeRoundsFor p (r :: store) =
      (if roundActive r && decide (normalizeAddressKey r.playerAddress = p)
        then 1 else 0) + activeRoundsFor p store := by
  unfold activeRoundsFor
  by_cases h : (roundActive r && decide (normalizeAddressKey r.playerAddress = p)) = true
  · simp [List.filter_cons, h]
    omega
  · simp [List.filter_cons, h]

theorem storeAny_eq_true_iff (p : Str) (store : List SoloRound) :
    (store.any (fun r => roundActive r &&
      decide (normalizeAddressKey r.playerAddress = p)) = true) ↔
      activeRoundsFor p store ≠ 0 := by
  rw [List.any_eq_true]
  unfold activeRoundsFor
  constructor
  · rintro ⟨r, hmem, hpred⟩ hlen
    have : r ∈ List.filter (fun r => roundActive r &&
        decide (normalizeAddressKey r.playerAddress = p)) store :=
      List.mem_filter.mpr ⟨hmem, hpred⟩
    rw [List.length_eq_zero] at hlen
    rw [hlen] at this
    exact List.not_mem_nil r this
  · intro hlen
    rcases List.exists_mem_of_length_pos (Nat.pos_of_ne_zero hlen) with ⟨r, hr⟩
    rcases List.mem_filter.mp hr with ⟨hmem, hpred⟩
    exact ⟨r, hmem, hpred⟩

theorem countOk_cons_ok (r : SoloRound)
    (l : List (Except SoloStoreConflictError SoloRound)) :
    countOk (.ok r :: l) = countOk l + 1 := by
  simp [countOk, List.filter_cons, Except.isOk, Except.toBool]

theorem countOk_cons_error (e : SoloStoreConflictError)
    (l : List (Except SoloStoreConflictError SoloRound)) :
    countOk (.error e :: l) = countOk l := by
  simp [countOk, List.filter_cons, Except.isOk, Except.toBool]

theorem runCreateCalls_single_active (p : Str) :
    ∀ (calls : List SoloRound) (store : List SoloRound),
      (∀ r ∈ calls, normalizeAddressKey r.playerAddress = p ∧ roundActive r = true) →
      activeRoundsFor p store ≤ 1 →
      countOk (runCreateCalls calls store).1 + activeRoundsFor p store ≤ 1 ∧
      activeRoundsFor p (runCreateCalls calls store).2 ≤ 1 := by
  intro calls
  induction calls with
  | nil =>
    intro store _ hbound
    simpa [runCreateCalls, countOk] using hbound
  | cons r rest ih =>
    intro store hcalls hbound
    obtain ⟨hkey, hactive⟩ := hcalls r (List.mem_cons_self r rest)
    have hrest : ∀ x ∈ rest, normalizeAddressKey x.playerAddress = p ∧
        roundActive x = true :=
      fun x hx => hcalls x (List.mem_cons_of_mem r hx)
    by_cases hany : activeRoundsFor p store = 0
    · have hanyfalse : (store.any (fun q => roundActive q &&
          decide (normalizeAddressKey q.playerAddress =
            normalizeAddressKey r.playerAddress))) = false := by
        rw [hkey]
        by_contra hcon
        rw [Bool.not_eq_false] at hcon
        exact (storeAny_eq_true_iff p store).mp hcon hany
      have hcreate : createSoloRoundRecord store r = .ok (r :: store) := by
        unfold createSoloRoundRecord
        rw [if_neg (by simp [hanyfalse])]
      have hcount : activeRoundsFor p (r :: store) = 1 := by
        rw [activeRoundsFor_cons, hany, if_pos (by simp [hactive, hkey])]
      have := ih (r :: store) hrest (by rw [hcount])
      rw [hcount] at this
      unfold runCreateCalls
      rw [hcreate]
      simp only [countOk_cons_ok, hany]
      omega
    · have hanytrue : (store.any (fun q => roundActive q &&
          decide (normalizeAddressKey q.playerAddress =
            normalizeAddressKey r.playerAddress))) = true := by
        rw [hkey]
        exact (storeAny_eq_true_iff p store).mpr hany
      have hcreate : createSoloRoundRecord store r = .error .conflict := by
        unfold createSoloRoundRecord
        rw [if_pos (by simp [hanytrue, hactive])]
      have := ih store hrest hbound
      unfold runCreateCalls
      rw [hcreate]
      simpa [countOk_cons_error] using this

/-- Claim C1: for every serialized sequence of store-level create calls
for the same player key (case-insensitive) against a store with no
active round for that player, at most one call succeeds — so at most one
resulting round is non-`completed` — and every other call fails with the
store conflict error; the final store never holds more than one active
round for the player.  (The create on the multi-instance backend is
enforced atomically by the database's partial unique index; see
`createSoloRoundRecord`.) -/
theorem c1_single_active_round (p : Str) (calls store : List SoloRound)
    (hcalls : ∀ r ∈ calls, normalizeAddressKey r.playerAddress = p ∧
      r.status ≠ .completed)
    (hstore : activeRoundsFor p store = 0) :
    countOk (runCreateCalls calls store).1 ≤ 1 ∧
    activeRoundsFor p (runCreateCalls calls store).2 ≤ 1 ∧
    ∀ res ∈ (runCreateCalls calls store).1,
      res.isOk = true ∨ res = .error .conflict := by
  have hcalls2 : ∀ r ∈ calls, normalizeAddressKey r.playerAddress = p ∧
      roundActive r = true := by
    intro r hr
    refine ⟨(hcalls r hr).1, ?_⟩
    unfold roundActive
    exact decide_eq_true ((hcalls r hr).2)
  have h := runCreateCalls_single_active p calls store hcalls2 (by omega)
  refine ⟨by omega, h.2, ?_⟩
  intro res _
  cases res with
  | ok r => exact Or.inl rfl
  | error e => cases e; exact Or.inr rfl

/-- Closed instance of `c1_single_active_round`: two concurrent creates
for the same player (differing case in the address) against an empty
store — at most one succeeds. -/
theorem c1_single_active_round_witness :
    countOk (runCreateCalls [sampleAwaitingRound,
      { sampleAwaitingRound with
        id := ("r-0003").data
        playerAddress := ("0xAB01").data }] []).1 ≤ 1 ∧
    activeRoundsFor ("0xab01").data (runCreateCalls [sampleAwaitingRound,
      { sampleAwaitingRound with
        id := ("r-0003").data
        playerAddress := ("0xAB01").data }] []).2 ≤ 1 ∧
    ∀ res ∈ (runCreateCalls [sampleAwaitingRound,
      { sampleAwaitingRound with
        id := ("r-0003").data
        playerAddress := ("0xAB01").data }] []).1,
      res.isOk = true ∨ res = .error .conflict :=
  c1_single_active_round ("0xab01").data
    [sampleAwaitingRound,
     { sampleAwaitingRound with
       id := ("r-0003").data
       playerAddress := ("0xAB01").data }] []
    (by decide) (by decide)

theorem claimUpdater_not_awaiting (token nowIso payHash : Str) (r : SoloRound)
    (h : r.status ≠ .awaiting_payment) :
    claimUpdater token nowIso payHash r = r := by
  unfold claimUpdater
  rw [if_pos h]

theorem claimUpdater_awaiting (token nowIso payHash : Str) (r : SoloRound)
    (h : r.status = .awaiting_payment) :
    (claimUpdater token nowIso payHash r).processingToken = some token ∧
    (claimUpdater token nowIso payHash r).status = .resolving := by
  unfold claimUpdater
  rw [if_neg (by simp [h])]
  exact ⟨rfl, rfl⟩

theorem finalizeUpdater_token_ne (token : Str) (coin : SoloMove)
    (outcome : SoloOutcome) (resolvedAt nowIso : Str) (payout : SoloPayout)
    (r : SoloRound) (h : r.processingToken ≠ some token) :
    finalizeUpdater token coin outcome resolvedAt nowIso payout r = r := by
  unfold finalizeUpdater
  rw [if_pos h]

theorem finalizeUpdater_token_eq (token : Str) (coin : SoloMove)
    (outcome : SoloOutcome) (resolvedAt nowIso : Str) (payout : SoloPayout)
    (r : SoloRound) (h : r.processingToken = some token) :
    (finalizeUpdater token coin outcome resolvedAt nowIso payout r).status =
      .completed ∧
    (finalizeUpdater token coin outcome resolvedAt nowIso payout r).processingToken =
      none := by
  unfold finalizeUpdater
  rw [if_neg (by simp [h])]
  exact ⟨rfl, rfl⟩

theorem raceStep_A0 (pa pb : PollerCtx) (s : RaceState) (h : s.pcA = 0) :
    raceStep pa pb true s =
      { s with
        store := claimUpdater pa.token pa.nowIso pa.payHash s.store
        pcA := 1
        proceedA := decide ((claimUpdater pa.token pa.nowIso pa.payHash
          s.store).processingToken = some pa.token) } := by
  unfold raceStep
  rw [if_pos rfl, h]

theorem raceStep_A1_go (pa pb : PollerCtx) (s : RaceState) (h : s.pcA = 1)
    (hp : s.proceedA = true) :
    raceStep pa pb true s =
      { s with
        store := finalizeUpdater pa.token pa.coin pa.outcome pa.nowIso
          pa.nowIso pa.payout s.store
        pcA := 2 } := by
  unfold raceStep
  rw [if_pos rfl, h]
  simp [hp]

theorem raceStep_A1_stop (pa pb : PollerCtx) (s : RaceState) (h : s.pcA = 1)
    (hp : s.proceedA = false) :
    raceStep pa pb true s = { s with pcA := 2 } := by
  unfold raceStep
  rw [if_pos rfl, h]
  simp [hp]

theorem raceStep_A2 (pa pb : PollerCtx) (s : RaceState) (n : Nat)
    (h : s.pcA = n + 2) :
    raceStep pa pb true s = s := by
  unfold raceStep
  rw [if_pos rfl, h]
  rfl

theorem raceStep_B0 (pa pb : PollerCtx) (s : RaceState) (h : s.pcB = 0) :
    raceStep pa pb false s =
      { s with
        store := claimUpdater pb.token pb.nowIso pb.payHash s.store
        pcB := 1
        proceedB := decide ((claimUpdater pb.token pb.nowIso pb.payHash
          s.store).processingToken = some pb.token) } := by
  unfold raceStep
  rw [if_neg (by simp), h]

theorem raceStep_B1_go (pa pb : PollerCtx) (s : RaceState) (h : s.pcB = 1)
    (hp : s.proceedB = true) :
    raceStep pa pb false s =
      { s with
        store := finalizeUpdater pb.token pb.coin pb.outcome pb.nowIso
          pb.nowIso pb.payout s.store
        pcB := 2 } := by
  unfold raceStep
  rw [if_neg (by simp), h]
  simp [hp]

theorem raceStep_B1_stop (pa pb : PollerCtx) (s : RaceState) (h : s.pcB = 1)
    (hp : s.proceedB = false) :
    raceStep pa pb false s = { s with pcB := 2 } := by
  unfold raceStep
  rw [if_neg (by simp), h]
  simp [hp]

theorem raceStep_B2 (pa pb : PollerCtx) (s : RaceState) (n : Nat)
    (h : s.pcB = n + 2) :
    raceStep pa pb false s = s := by
  unfold raceStep
  rw [if_neg (by simp), h]
  rfl

theorem raceStep_preserves_inv (pa pb : PollerCtx) (hne : pa.token ≠ pb.token)
    (w : Bool) (s : RaceState) (h : raceInv pa pb s) :
    raceInv pa pb (raceStep pa pb w s) := by
  obtain ⟨h1, h2, h3, h4⟩ := h
  cases w with
  | true =>
    rcases hpc : s.pcA with _ | pc1
    · rw [raceStep_A0 pa pb s hpc]
      by_cases hst : s.store.status = .awaiting_payment
      · obtain ⟨htokn, hpa0, hpb0⟩ := h3 hst
        obtain ⟨htok2, hst2⟩ :=
          claimUpdater_awaiting pa.token pa.nowIso pa.payHash s.store hst
        refine ⟨fun hcon => absurd hcon (by simp), ?_, ?_, ?_⟩
        · intro hpcb
          refine ⟨hpb0, ?_⟩
          show (claimUpdater pa.token pa.nowIso pa.payHash
            s.store).processingToken ≠ some pb.token
          rw [htok2]
          simp only [ne_eq, Option.some.injEq]
          exact hne
        · intro hcon
          rw [show ({ s with
              store := claimUpdater pa.token pa.nowIso pa.payHash s.store
              pcA := 1
              proceedA := decide ((claimUpdater pa.token pa.nowIso pa.payHash
                s.store).processingToken = some pa.token) } : RaceState).store =
            claimUpdater pa.token pa.nowIso pa.payHash s.store from rfl] at hcon
          rw [hst2] at hcon
          exact SoloRoundStatus.noConfusion hcon
        · simp [hpb0]
      · rw [claimUpdater_not_awaiting pa.token pa.nowIso pa.payHash s.store hst]
        obtain ⟨hpa0, hptok⟩ := h1 hpc
        refine ⟨fun hcon => absurd hcon (by simp), fun hpcb => h2 hpcb,
          fun hcon => absurd hcon hst, by simp [hptok]⟩
    · rcases pc1 with _ | pc2
      · by_cases hpA : s.proceedA = true
        · rw [raceStep_A1_go pa pb s hpc hpA]
          by_cases htok : s.store.processingToken = some pa.token
          · obtain ⟨hst2, htok2⟩ := finalizeUpdater_token_eq pa.token pa.coin
              pa.outcome pa.nowIso pa.nowIso pa.payout s.store htok
            refine ⟨fun hcon => absurd hcon (by simp), ?_, ?_, ?_⟩
            · intro hpcb
              refine ⟨(h2 hpcb).1, ?_⟩
              show (finalizeUpdater pa.token pa.coin pa.outcome pa.nowIso
                pa.nowIso pa.payout s.store).processingToken ≠ some pb.token
              rw [htok2]
              simp
            · intro hcon
              rw [show ({ s with
                  store := finalizeUpdater pa.token pa.coin pa.outcome pa.nowIso
                    pa.nowIso pa.payout s.store
                  pcA := 2 } : RaceState).store =
                finalizeUpdater pa.token pa.coin pa.outcome pa.nowIso pa.nowIso
                  pa.payout s.store from rfl] at hcon
              rw [hst2] at hcon
              exact SoloRoundStatus.noConfusion hcon
            · exact h4
          · rw [finalizeUpdater_token_ne pa.token pa.coin pa.outcome pa.nowIso
              pa.nowIso pa.payout s.store htok]
            refine ⟨fun hcon => absurd hcon (by simp), fun hpcb => h2 hpcb,
              ?_, h4⟩
            intro hcon
            exact absurd hpA (by simp [(h3 hcon).2.1])
        · rw [raceStep_A1_stop pa pb s hpc (by simpa using hpA)]
          refine ⟨fun hcon => absurd hcon (by simp), fun hpcb => h2 hpcb,
            fun hcon => h3 hcon, h4⟩
      · rw [raceStep_A2 pa pb s pc2 hpc]
        exact ⟨h1, h2, h3, h4⟩
  | false =>
    rcases hpc : s.pcB with _ | pc1
    · rw [raceStep_B0 pa pb s hpc]
      by_cases hst : s.store.status = .awaiting_payment
      · obtain ⟨htokn, hpa0, hpb0⟩ := h3 hst
        obtain ⟨htok2, hst2⟩ :=
          claimUpdater_awaiting pb.token pb.nowIso pb.payHash s.store hst
        refine ⟨?_, fun hcon => absurd hcon (by simp), ?_, ?_⟩
        · intro hpca
          refine ⟨hpa0, ?_⟩
          show (claimUpdater pb.token pb.nowIso pb.payHash
            s.store).processingToken ≠ some pa.token
          rw [htok2]
          simp only [ne_eq, Option.some.injEq]
          exact fun hcon => hne hcon.symm
        · intro hcon
          rw [show ({ s with
              store := claimUpdater pb.token pb.nowIso pb.payHash s.store
              pcB := 1
              proceedB := decide ((claimUpdater pb.token pb.nowIso pb.payHash
                s.store).processingToken = some pb.token) } : RaceState).store =
            claimUpdater pb.token pb.nowIso pb.payHash s.store from rfl] at hcon
          rw [hst2] at hcon
          exact SoloRoundStatus.noConfusion hcon
        · simp [hpa0]
      · rw [claimUpdater_not_awaiting pb.token pb.nowIso pb.payHash s.store hst]
        obtain ⟨hpb0, hptok⟩ := h2 hpc
        refine ⟨fun hpca => h1 hpca, fun hcon => absurd hcon (by simp),
          fun hcon => absurd hcon hst, by simp [hptok]⟩
    · rcases pc1 with _ | pc2
      · by_cases hpB : s.proceedB = true
        · rw [raceStep_B1_go pa pb s hpc hpB]
          by_cases htok : s.store.processingToken = some pb.token
          · obtain ⟨hst2, htok2⟩ := finalizeUpdater_token_eq pb.token pb.coin
              pb.outcome pb.nowIso pb.nowIso pb.payout s.store htok
            refine ⟨?_, fun hcon => absurd hcon (by simp), ?_, ?_⟩
            · intro hpca
              refine ⟨(h1 hpca).1, ?_⟩
              show (finalizeUpdater pb.token pb.coin pb.outcome pb.nowIso
                pb.nowIso pb.payout s.store).processingToken ≠ some pa.token
              rw [htok2]
              simp
            · intro hcon
              rw [show ({ s with
                  store := finalizeUpdater pb.token pb.coin pb.outcome pb.nowIso
                    pb.nowIso pb.payout s.store
                  pcB := 2 } : RaceState).store =
                finalizeUpdater pb.token pb.coin pb.outcome pb.nowIso pb.nowIso
                  pb.payout s.store from rfl] at hcon
              rw [hst2] at hcon
              exact SoloRoundStatus.noConfusion hcon
            · exact h4
          · rw [finalizeUpdater_token_ne pb.token pb.coin pb.outcome pb.nowIso
              pb.nowIso pb.payout s.store htok]
            refine ⟨fun hpca => h1 hpca, fun hcon => absurd hcon (by simp),
              ?_, h4⟩
            intro hcon
            exact absurd hpB (by simp [(h3 hcon).2.2])
        · rw [raceStep_B1_stop pa pb s hpc (by simpa using hpB)]
          refine ⟨fun hpca => h1 hpca, fun hcon => absurd hcon (by simp),
            fun hcon => h3 hcon, h4⟩
      · rw [raceStep_B2 pa pb s pc2 hpc]
        exact ⟨h1, h2, h3, h4⟩

theorem raceFold_preserves_inv (pa pb : PollerCtx) (hne : pa.token ≠ pb.token) :
    ∀ (sched : List Bool) (s : RaceState), raceInv pa pb s →
      raceInv pa pb (sched.foldl (fun t w => raceStep pa pb w t) s) := by
  intro sched
  induction sched with
  | nil => intro s hs; simpa using hs
  | cons w rest ih =>
    intro s hs
    rw [List.foldl_cons]
    exact ih (raceStep pa pb w s) (raceStep_preserves_inv pa pb hne w s hs)

/-- Claim C2: the claim updater transitions into `resolving` only when
the stored round is still `awaiting_payment` at the moment of update
(otherwise it returns the round unchanged, and the caller — observing a
`processingToken` different from the token it generated — stops); the
finalize updater applies only when the stored `processingToken` equals
the caller's claim token; hence, for two concurrent
`processSoloRoundLifecycle` calls that both observed the same
`awaiting_payment` round with a qualifying payment, under every
interleaving of their store updates at most one of them proceeds to
outcome resolution and payout. -/
theorem c2_at_most_one_resolver (pa pb : PollerCtx) (r0 : SoloRound)
    (_hst : r0.status = .awaiting_payment)
    (htok : r0.processingToken = none)
    (hne : pa.token ≠ pb.token) :
    (∀ (token nowIso payHash : Str) (r : SoloRound),
      r.status ≠ .awaiting_payment → claimUpdater token nowIso payHash r = r) ∧
    (∀ (token : Str) (coin : SoloMove) (outcome : SoloOutcome)
        (resolvedAt nowIso : Str) (payout : SoloPayout) (r : SoloRound),
      r.processingToken ≠ some token →
      finalizeUpdater token coin outcome resolvedAt nowIso payout r = r) ∧
    (∀ sched : List Bool,
      ¬((raceRun pa pb sched r0).proceedA = true ∧
        (raceRun pa pb sched r0).proceedB = true)) := by
  refine ⟨claimUpdater_not_awaiting, finalizeUpdater_token_ne, ?_⟩
  intro sched
  have hinit : raceInv pa pb
      { store := r0, pcA := 0, proceedA := false, pcB := 0, proceedB := false } := by
    refine ⟨fun _ => ⟨rfl, ?_⟩, fun _ => ⟨rfl, ?_⟩, fun _ => ⟨htok, rfl, rfl⟩, ?_⟩
    · rw [htok]; exact fun hcon => Option.noConfusion hcon
    · rw [htok]; exact fun hcon => Option.noConfusion hcon
    · exact fun hcon => Bool.noConfusion hcon.1
  exact (raceFold_preserves_inv pa pb hne sched _ hinit).2.2.2

/-- Closed instance of `c2_at_most_one_resolver`: two concrete pollers
with distinct tokens race on a concrete `awaiting_payment` round under
the interleaving A-claim, B-claim, A-finalize, B-finalize; they do not
both proceed. -/
theorem c2_at_most_one_resolver_witness :
    ¬((raceRun
        { token := ("token-a").data, nowIso := ("t1").data
          payHash := ("0xh1").data, coin := .heads, outcome := .win
          payout := sampleQuietEnv.payoutResult }
        { token := ("token-b").data, nowIso := ("t2").data
          payHash := ("0xh1").data, coin := .tails, outcome := .lose
          payout := sampleQuietEnv.payoutResult }
        [true, false, true, false] sampleAwaitingRound).proceedA = true ∧
      (raceRun
        { token := ("token-a").data, nowIso := ("t1").data
          payHash := ("0xh1").data, coin := .heads, outcome := .win
          payout := sampleQuietEnv.payoutResult }
        { token := ("token-b").data, nowIso := ("t2").data
          payHash := ("0xh1").data, coin := .tails, outcome := .lose
          payout := sampleQuietEnv.payoutResult }
        [true, false, true, false] sampleAwaitingRound).proceedB = true) :=
  (c2_at_most_one_resolver
    { token := ("token-a").data, nowIso := ("t1").data
      payHash := ("0xh1").data, coin := .heads, outcome := .win
      payout := sampleQuietEnv.payoutResult }
    { token := ("token-b").data, nowIso := ("t2").data
      payHash := ("0xh1").data, coin := .tails, outcome := .lose
      payout := sampleQuietEnv.payoutResult }
    sampleAwaitingRound (by decide) (by decide) (by decide)).2.2
    [true, false, true, false]

theorem sendTransactionRun_ok_status :
    ∀ (outs : List (Except Str TransactionReceipt)) (r : TransactionReceipt),
      sendTransactionRun outs = .ok r → r.status = .success := by
  intro outs
  induction outs with
  | nil =>
    intro r h
    exact absurd h (by simp [sendTransactionRun])
  | cons t rest ih =>
    intro r h
    cases t with
    | error e => simp [sendTransactionRun] at h
    | ok rc =>
      by_cases hrs : rc.status = .success
      · cases rest with
        | nil =>
          simp only [sendTransactionRun] at h
          rw [if_neg (by simp [hrs])] at h
          cases h
          exact hrs
        | cons t2 rest2 =>
          simp only [sendTransactionRun] at h
          rw [if_neg (by simp [hrs])] at h
          exact ih r h
      · simp only [sendTransactionRun] at h
        rw [if_pos (by simp [hrs])] at h
        exact Except.noConfusion h

theorem payoutAttemptRun_ok (chain : PayoutChain) (k a h : Str)
    (hr : payoutAttemptRun chain k a = .ok h) :
    ∃ receipt, sendTransactionRun chain.txOutcomes = .ok receipt ∧
      h = receipt.transactionHash := by
  unfold payoutAttemptRun at hr
  cases h1 : normalizePrivateKey k with
  | error e => rw [h1] at hr; exact Except.noConfusion hr
  | ok k2 =>
    rw [h1] at hr
    cases h2 : chain.avatarLookup with
    | error e => rw [h2] at hr; exact Except.noConfusion hr
    | ok u =>
      rw [h2] at hr
      cases h3 : parseAmountToAttoPayout a with
      | error e => rw [h3] at hr; exact Except.noConfusion hr
      | ok n =>
        rw [h3] at hr
        cases h4 : sendTransactionRun chain.txOutcomes with
        | error e => rw [h4] at hr; exact Except.noConfusion hr
        | ok receipt =>
          rw [h4] at hr
          cases hr
          exact ⟨receipt, rfl, rfl⟩

/-- Claim C7: `payoutSoloWinner` never throws — it always returns a
payout sub-record whose status is `skipped`, `failed` or `paid`.  With
the org payer configuration missing it returns `skipped`, and with an
invalid org or winner address it returns `failed`, in each case without
attempting a transaction (the result does not depend on the chain
oracles).  It returns `paid` (with the transaction hash) only when the
submitted transaction's receipt was confirmed successful; an error or a
reverted receipt from the submission path yields `failed`, never
`paid`. -/
theorem c7_payout_contract (cfg : PayoutEnvCfg) (chain : PayoutChain)
    (winner amount nowIso : Str) :
    ((payoutSoloWinner cfg chain winner amount nowIso).status = .skipped ∨
     (payoutSoloWinner cfg chain winner amount nowIso).status = .failed ∨
     (payoutSoloWinner cfg chain winner amount nowIso).status = .paid) ∧
    ((optTruthy cfg.orgAvatarAddress = false ∨ optTruthy cfg.privateKey = false) →
      (payoutSoloWinner cfg chain winner amount nowIso).status = .skipped ∧
      ∀ chain2, payoutSoloWinner cfg chain2 winner amount nowIso =
        payoutSoloWinner cfg chain winner amount nowIso) ∧
    (optTruthy cfg.orgAvatarAddress = true → optTruthy cfg.privateKey = true →
      chain.isAddress (cfg.orgAvatarAddress.getD []) = false →
      (payoutSoloWinner cfg chain winner amount nowIso).status = .failed ∧
      ∀ la txs, payoutSoloWinner cfg
        { isAddress := chain.isAddress, avatarLookup := la, txOutcomes := txs }
        winner amount nowIso =
        payoutSoloWinner cfg chain winner amount nowIso) ∧
    (optTruthy cfg.orgAvatarAddress = true → optTruthy cfg.privateKey = true →
      chain.isAddress (cfg.orgAvatarAddress.getD []) = true →
      chain.isAddress winner = false →
      (payoutSoloWinner cfg chain winner amount nowIso).status = .failed ∧
      ∀ la txs, payoutSoloWinner cfg
        { isAddress := chain.isAddress, avatarLookup := la, txOutcomes := txs }
        winner amount nowIso =
        payoutSoloWinner cfg chain winner amount nowIso) ∧
    ((payoutSoloWinner cfg chain winner amount nowIso).status = .paid →
      ∃ receipt, sendTransactionRun chain.txOutcomes = .ok receipt ∧
        receipt.status = .success ∧
        (payoutSoloWinner cfg chain winner amount nowIso).txHash =
          some receipt.transactionHash) ∧
    (∀ e, sendTransactionRun chain.txOutcomes = .error e →
      (payoutSoloWinner cfg chain winner amount nowIso).status ≠ .paid) := by
  by_cases ha : optTruthy cfg.orgAvatarAddress = true
  case neg =>
    have hres : ∀ ch : PayoutChain, payoutSoloWinner cfg ch winner amount nowIso =
        { status := .skipped
          fromAddress := cfg.orgAvatarAddress.getD ("not-configured").data
          toAddress := winner
          amountCRC := amount
          error := some ("Missing CIRCLES_ORG_AVATAR_ADDRESS or CIRCLES_ORG_PRIVATE_KEY").data
          processedAt := some nowIso } := by
      intro ch
      unfold payoutSoloWinner
      rw [if_pos (by simp [Bool.not_eq_true _ ▸ ha])]
    refine ⟨Or.inl (by rw [hres chain]),
      fun _ => ⟨by rw [hres chain], fun ch2 => by rw [hres ch2, hres chain]⟩,
      ?_, ?_, ?_, ?_⟩
    · intro hc _ _
      exact absurd hc ha
    · intro hc _ _ _
      exact absurd hc ha
    · intro hp
      rw [hres chain] at hp
      exact absurd hp (by simp)
    · intro e _ hp
      rw [hres chain] at hp
      exact absurd hp (by simp)
  case pos =>
  by_cases hb : optTruthy cfg.privateKey = true
  case neg =>
    have hres : ∀ ch : PayoutChain, payoutSoloWinner cfg ch winner amount nowIso =
        { status := .skipped
          fromAddress := cfg.orgAvatarAddress.getD ("not-configured").data
          toAddress := winner
          amountCRC := amount
          error := some ("Missing CIRCLES_ORG_AVATAR_ADDRESS or CIRCLES_ORG_PRIVATE_KEY").data
          processedAt := some nowIso } := by
      intro ch
      unfold payoutSoloWinner
      rw [if_pos (by simp [hb])]
    refine ⟨Or.inl (by rw [hres chain]),
      fun _ => ⟨by rw [hres chain], fun ch2 => by rw [hres ch2, hres chain]⟩,
      ?_, ?_, ?_, ?_⟩
    · intro _ hc _
      exact absurd hc hb
    · intro _ hc _ _
      exact absurd hc hb
    · intro hp
      rw [hres chain] at hp
      exact absurd hp (by simp)
    · intro e _ hp
      rw [hres chain] at hp
      exact absurd hp (by simp)
  case pos =>
  by_cases horg : chain.isAddress (cfg.orgAvatarAddress.getD []) = true
  case neg =>
    have horgf : chain.isAddress (cfg.orgAvatarAddress.getD []) = false :=
      Bool.not_eq_true _ ▸ horg
    have hres : ∀ la txs, payoutSoloWinner cfg
        { isAddress := chain.isAddress, avatarLookup := la, txOutcomes := txs }
        winner amount nowIso =
        { status := .failed
          fromAddress := cfg.orgAvatarAddress.getD []
          toAddress := winner
          amountCRC := amount
          error := some ("CIRCLES_ORG_AVATAR_ADDRESS is invalid").data
          processedAt := some nowIso } := by
      intro la txs
      unfold payoutSoloWinner
      rw [if_neg (by simp [ha, hb]), if_pos (by simp [horgf])]
    have hres0 : payoutSoloWinner cfg chain winner amount nowIso =
        { status := .failed
          fromAddress := cfg.orgAvatarAddress.getD []
          toAddress := winner
          amountCRC := amount
          error := some ("CIRCLES_ORG_AVATAR_ADDRESS is invalid").data
          processedAt := some nowIso } := by
      unfold payoutSoloWinner
      rw [if_neg (by simp [ha, hb]), if_pos (by simp [horgf])]
    refine ⟨Or.inr (Or.inl (by rw [hres0])),
      ?_, fun _ _ _ => ⟨by rw [hres0], fun la txs => by rw [hres la txs, hres0]⟩,
      ?_, ?_, ?_⟩
    · rintro (hc | hc)
      · exact absurd ha (by simp [hc])
      · exact absurd hb (by simp [hc])
    · intro _ _ hc _
      exact absurd hc (by simp [horgf])
    · intro hp
      rw [hres0] at hp
      exact absurd hp (by simp)
    · intro e _ hp
      rw [hres0] at hp
      exact absurd hp (by simp)
  case pos =>
  by_cases hwin : chain.isAddress winner = true
  case neg =>
    have hwinf : chain.isAddress winner = false := Bool.not_eq_true _ ▸ hwin
    have hres : ∀ la txs, payoutSoloWinner cfg
        { isAddress := chain.isAddress, avatarLookup := la, txOutcomes := txs }
        winner amount nowIso =
        { status := .failed
          fromAddress := cfg.orgAvatarAddress.getD []
          toAddress := winner
          amountCRC := amount
          error := some ("Winner address is invalid").data
          processedAt := some nowIso } := by
      intro la txs
      unfold payoutSoloWinner
      rw [if_neg (by simp [ha, hb]), if_neg (by simp [horg]),
        if_pos (by simp [hwinf])]
    have hres0 : payoutSoloWinner cfg chain winner amount nowIso =
        { status := .failed
          fromAddress := cfg.orgAvatarAddress.getD []
          toAddress := winner
          amountCRC := amount
          error := some ("Winner address is invalid").data
          processedAt := some nowIso } := by
      unfold payoutSoloWinner
      rw [if_neg (by simp [ha, hb]), if_neg (by simp [horg]),
        if_pos (by simp [hwinf])]
    refine ⟨Or.inr (Or.inl (by rw [hres0])), ?_,
      ?_, fun _ _ _ _ => ⟨by rw [hres0], fun la txs => by rw [hres la txs, hres0]⟩,
      ?_, ?_⟩
    · rintro (hc | hc)
      · exact absurd ha (by simp [hc])
      · exact absurd hb (by simp [hc])
    · intro _ _ hc
      exact absurd horg (by simp [hc])
    · intro hp
      rw [hres0] at hp
      exact absurd hp (by simp)
    · intro e _ hp
      rw [hres0] at hp
      exact absurd hp (by simp)
  case pos =>
  cases hatt : payoutAttemptRun chain (cfg.privateKey.getD []) amount with
  | ok hsh =>
    have hres0 : payoutSoloWinner cfg chain winner amount nowIso =
        { status := .paid
          fromAddress := cfg.orgAvatarAddress.getD []
          toAddress := winner
          amountCRC := amount
          txHash := some hsh
          processedAt := some nowIso } := by
      unfold payoutSoloWinner
      rw [if_neg (by simp [ha, hb]), if_neg (by simp [horg]),
        if_neg (by simp [hwin]), hatt]
    obtain ⟨receipt, hrcpt, hhsh⟩ :=
      payoutAttemptRun_ok chain (cfg.privateKey.getD []) amount hsh hatt
    refine ⟨Or.inr (Or.inr (by rw [hres0])), ?_, ?_, ?_, ?_, ?_⟩
    · rintro (hc | hc)
      · exact absurd ha (by simp [hc])
      · exact absurd hb (by simp [hc])
    · intro _ _ hc
      exact absurd horg (by simp [hc])
    · intro _ _ _ hc
      exact absurd hwin (by simp [hc])
    · intro _
      refine ⟨receipt, hrcpt, sendTransactionRun_ok_status _ _ hrcpt, ?_⟩
      rw [hres0, hhsh]
    · intro e he hp
      rw [he] at hrcpt
      exact Except.noConfusion hrcpt
  | error err =>
    have hres0 : payoutSoloWinner cfg chain winner amount nowIso =
        { status := .failed
          fromAddress := cfg.orgAvatarAddress.getD []
          toAddress := winner
          amountCRC := amount
          error := some err
          processedAt := some nowIso } := by
      unfold payoutSoloWinner
      rw [if_neg (by simp [ha, hb]), if_neg (by simp [horg]),
        if_neg (by simp [hwin]), hatt]
    refine ⟨Or.inr (Or.inl (by rw [hres0])), ?_, ?_, ?_, ?_, ?_⟩
    · rintro (hc | hc)
      · exact absurd ha (by simp [hc])
      · exact absurd hb (by simp [hc])
    · intro _ _ hc
      exact absurd horg (by simp [hc])
    · intro _ _ _ hc
      exact absurd hwin (by simp [hc])
    · intro hp
      rw [hres0] at hp
      exact absurd hp (by simp)
    · intro e _ hp
      rw [hres0] at hp
      exact absurd hp (by simp)

/-- Closed instance of `c7_payout_contract`: with the private key unset,
a concrete call is skipped. -/
theorem c7_payout_contract_witness :
    (payoutSoloWinner
      { orgAvatarAddress := some ("0xOrg1").data, privateKey := none }
      { isAddress := fun _ => true, avatarLookup := .ok (), txOutcomes := [] }
      ("0xAb01").data ("2").data ("now").data).status = .skipped :=
  ((c7_payout_contract
    { orgAvatarAddress := some ("0xOrg1").data, privateKey := none }
    { isAddress := fun _ => true, avatarLookup := .ok (), txOutcomes := [] }
    ("0xAb01").data ("2").data ("now").data).2.1 (Or.inr (by decide))).1

theorem find?_first {α : Type} (q : α → Bool) :
    ∀ (l : List α) (a : α), l.find? q = some a →
      ∃ pre post, l = pre ++ a :: post ∧ (∀ x ∈ pre, q x = false) ∧
        q a = true := by
  intro l
  induction l with
  | nil => intro a h; exact absurd h (by simp)
  | cons hd tl ih =>
    intro a h
    by_cases hq : q hd = true
    · rw [List.find?_cons_of_pos tl hq] at h
      cases h
      exact ⟨[], tl, rfl, by simp, hq⟩
    · rw [List.find?_cons_of_neg tl hq] at h
      obtain ⟨pre, post, heq, hpre, hqa⟩ := ih a h
      refine ⟨hd :: pre, post, by rw [heq]; rfl, ?_, hqa⟩
      intro x hx
      rcases List.mem_cons.mp hx with hx | hx
      · rw [hx]
        exact Bool.not_eq_true _ ▸ hq
      · exact hpre x hx

/-- Claim C8 (amended): when the history scan returns a payment, the
returned record is built from the first row in the 5-page,
newest-first scan window passing the loop's filter, and that row has a
transaction hash, `from` equal to the player and `to` equal to the
recipient (case-insensitively), a timestamp no earlier than the round's
creation time, an amount at least the entry fee, and — when an expected
marker is configured — embedded events that do not mismatch the marker:
either some embedded `CrcV2_TransferData` event matches it, or the row
has no `CrcV2_TransferData` events at all (missing events are
tolerated). -/
theorem c8_history_scan_first_match (dateParse : Str → Option Int)
    (pages : List (List TransactionHistoryRow))
    (player recipient : Str) (minAmt : Nat) (createdAt : Str)
    (expected : Option Str) (result : CirclesTransferEvent)
    (h : findPaymentFromTransferHistory dateParse pages player recipient
      minAmt createdAt expected = some result) :
    ∃ row pre post,
      (pages.take 5).flatten = pre ++ row :: post ∧
      (∀ x ∈ pre, historyRowQualifies dateParse player recipient minAmt
        createdAt expected x = false) ∧
      historyRowQualifies dateParse player recipient minAmt createdAt
        expected row = true ∧
      result = historyRowToEvent row ∧
      row.transactionHash ≠ [] ∧
      jsToLower row.fromAddress = jsToLower player ∧
      jsToLower row.toAddress = jsToLower recipient ∧
      toUnixSeconds dateParse createdAt ≤ row.timestamp ∧
      minAmt ≤ row.attoCircles.getD row.value ∧
      (∀ ed, expected = some ed → ed ≠ [] →
        (transferDataMatchState (row.events.getD []) ed = .matched ∨
         transferDataMatchState (row.events.getD []) ed = .missing)) := by
  unfold findPaymentFromTransferHistory at h
  rcases Option.map_eq_some'.mp h with ⟨row, hfind, hres⟩
  obtain ⟨pre, post, heq, hpre, hq⟩ := find?_first _ _ _ hfind
  refine ⟨row, pre, post, heq, hpre, hq, hres.symm, ?_⟩
  unfold historyRowQualifies at hq
  simp only [Bool.and_eq_true, Bool.not_eq_true', decide_eq_true_eq] at hq
  obtain ⟨⟨⟨⟨⟨hhash, hfrom⟩, hto⟩, hts⟩, hamt⟩, hmark⟩ := hq
  refine ⟨by simpa [List.isEmpty_iff] using hhash, hfrom, hto, hts, hamt, ?_⟩
  intro ed hed hne
  rw [hed] at hmark
  simp only at hmark
  rw [if_neg (by simpa [List.isEmpty_iff] using hne)] at hmark
  have := of_decide_eq_true hmark
  cases hstate : transferDataMatchState (row.events.getD []) ed with
  | matched => exact Or.inl rfl
  | mismatch => exact absurd hstate this
  | missing => exact Or.inr rfl

/-- Counterexample to claim C8 as stated: a history row whose embedded
event list is absent — so no `CrcV2_TransferData` event matches the
configured marker — is nevertheless returned by the scan (the filter
only rejects an explicit mismatch; missing events pass). -/
theorem c8_counterexample :
    findPaymentFromTransferHistory sampleDateParse [[sampleHistoryRow]]
      ("0xAb01").data ("0xOrg1").data 1000000000000000000
      ("2026-01-01T00:00:00.000Z").data sampleExpectedData =
      some (historyRowToEvent sampleHistoryRow) ∧
    (∀ ed, sampleExpectedData = some ed →
      transferDataMatchState (sampleHistoryRow.events.getD []) ed ≠ .matched) := by
  constructor
  · decide
  · intro ed hed
    cases hed
    decide

/-- Closed instance of `c8_history_scan_first_match` on the same concrete
scan. -/
theorem c8_history_scan_first_match_witness :
    ∃ row pre post,
      (([[sampleHistoryRow]] :
        List (List TransactionHistoryRow)).take 5).flatten = pre ++ row :: post ∧
      (∀ x ∈ pre, historyRowQualifies sampleDateParse ("0xAb01").data
        ("0xOrg1").data 1000000000000000000
        ("2026-01-01T00:00:00.000Z").data sampleExpectedData x = false) ∧
      historyRowQualifies sampleDateParse ("0xAb01").data ("0xOrg1").data
        1000000000000000000 ("2026-01-01T00:00:00.000Z").data
        sampleExpectedData row = true ∧
      historyRowToEvent sampleHistoryRow = historyRowToEvent row ∧
      row.transactionHash ≠ [] ∧
      jsToLower row.fromAddress = jsToLower ("0xAb01").data ∧
      jsToLower row.toAddress = jsToLower ("0xOrg1").data ∧
      toUnixSeconds sampleDateParse ("2026-01-01T00:00:00.000Z").data ≤
        row.timestamp ∧
      1000000000000000000 ≤ row.attoCircles.getD row.value ∧
      (∀ ed, sampleExpectedData = some ed → ed ≠ [] →
        (transferDataMatchState (row.events.getD []) ed = .matched ∨
         transferDataMatchState (row.events.getD []) ed = .missing)) :=
  c8_history_scan_first_match sampleDateParse [[sampleHistoryRow]]
    ("0xAb01").data ("0xOrg1").data 1000000000000000000
    ("2026-01-01T00:00:00.000Z").data sampleExpectedData
    (historyRowToEvent sampleHistoryRow) (by decide)

theorem charDigitVal_spec (c : Char) (h : isDecDigit c = true) :
    charDigitVal c < 10 ∧ digitToChar (charDigitVal c) = c ∧
    (charDigitVal c = 0 ↔ c = '0') := by
  rw [isDecDigit, Bool.and_eq_true, decide_eq_true_eq, decide_eq_true_eq] at h
  obtain ⟨h1, h2⟩ := h
  have h1n : 48 ≤ c.toNat := h1
  have h2n : c.toNat ≤ 57 := h2
  have hval : charDigitVal c = c.toNat - 48 := by
    unfold charDigitVal
    rw [if_pos (by
      rw [Bool.and_eq_true, decide_eq_true_eq, decide_eq_true_eq]
      exact ⟨h1, h2⟩)]
  rw [hval]
  have hc := Char.ofNat_toNat c
  refine ⟨by omega, ?_, ?_⟩
  · generalize c.toNat = t at h1n h2n hc
    rw [← hc]
    interval_cases t <;> decide
  · constructor
    · intro hz
      have ht : c.toNat = 48 := by omega
      rw [← hc, ht]
    · intro hz
      rw [hz]
      decide

theorem isDecDigit_ne_dot (c : Char) (h : isDecDigit c = true) : c ≠ '.' := by
  rw [isDecDigit, Bool.and_eq_true, decide_eq_true_eq, decide_eq_true_eq] at h
  obtain ⟨h1, h2⟩ := h
  have h1n : 48 ≤ c.toNat := h1
  intro hcon
  rw [hcon] at h1n
  exact absurd h1n (by decide)

theorem strToNat_foldl (s : Str) :
    ∀ a : Nat, s.foldl (fun x c => 10 * x + charDigitVal c) a =
      a * 10 ^ s.length + Nat.ofDigits 10 (s.map charDigitVal).reverse := by
  induction s with
  | nil => intro a; simp [Nat.ofDigits]
  | cons c t ih =>
    intro a
    rw [List.foldl_cons, ih]
    rw [List.map_cons, List.reverse_cons, Nat.ofDigits_append]
    simp only [List.length_reverse, List.length_map, List.length_cons,
      Nat.ofDigits_singleton]
    ring

theorem strToNat_ofDigits (s : Str) :
    strToNat s = Nat.ofDigits 10 (s.map charDigitVal).reverse := by
  unfold strToNat
  rw [strToNat_foldl]
  simp

theorem strToNat_append (a b : Str) :
    strToNat (a ++ b) = strToNat a * 10 ^ b.length + strToNat b := by
  rw [strToNat_ofDigits (a ++ b), strToNat_ofDigits a, strToNat_ofDigits b]
  rw [List.map_append, List.reverse_append, Nat.ofDigits_append]
  simp only [List.length_reverse, List.length_map]
  ring

theorem strToNat_lt (s : Str) (hd : s.all isDecDigit = true) :
    strToNat s < 10 ^ s.length := by
  rw [strToNat_ofDigits]
  have : (s.map charDigitVal).reverse.length = s.length := by simp
  rw [← this]
  apply Nat.ofDigits_lt_base_pow_length (by norm_num)
  intro x hx
  rw [List.mem_reverse, List.mem_map] at hx
  obtain ⟨c, hc, hcx⟩ := hx
  rw [← hcx]
  exact (charDigitVal_spec c (by exact List.all_eq_true.mp hd c hc)).1

theorem digits_strToNat (c : Char) (t : Str)
    (hd : (c :: t).all isDecDigit = true) (hc0 : c ≠ '0') :
    Nat.digits 10 (strToNat (c :: t)) = ((c :: t).map charDigitVal).reverse := by
  rw [strToNat_ofDigits]
  apply Nat.digits_ofDigits 10 (by norm_num)
  · intro x hx
    rw [List.mem_reverse, List.mem_map] at hx
    obtain ⟨ch, hch, hchx⟩ := hx
    rw [← hchx]
    exact (charDigitVal_spec ch (List.all_eq_true.mp hd ch hch)).1
  · intro hnil
    have heq : (List.map charDigitVal (c :: t)).reverse =
        (List.map charDigitVal t).reverse ++ [charDigitVal c] := by simp
    have h4 := List.getLast?_eq_getLast _ hnil
    have h5 : (List.map charDigitVal (c :: t)).reverse.getLast? =
        some (charDigitVal c) := by rw [heq, List.getLast?_concat]
    rw [h4] at h5
    have h6 := Option.some.inj h5
    rw [h6]
    intro hz
    exact hc0 (((charDigitVal_spec c
      (List.all_eq_true.mp hd c (List.mem_cons_self c t))).2.2).mp hz)

theorem strToNat_ne_zero (c : Char) (t : Str)
    (hd : (c :: t).all isDecDigit = true) (hc0 : c ≠ '0') :
    strToNat (c :: t) ≠ 0 := by
  intro hz
  have := digits_strToNat c t hd hc0
  rw [hz] at this
  simp at this

theorem natDecRepr_eq_digits (n : Nat) (hn : n ≠ 0) :
    natDecRepr n = (Nat.digits 10 n).reverse.map digitToChar := by
  unfold natDecRepr
  rw [if_neg hn, digitsLE_eq_digits n n le_rfl]

theorem natDecRepr_strToNat (c : Char) (t : Str)
    (hd : (c :: t).all isDecDigit = true) (hc0 : c ≠ '0') :
    natDecRepr (strToNat (c :: t)) = c :: t := by
  rw [natDecRepr_eq_digits _ (strToNat_ne_zero c t hd hc0),
    digits_strToNat c t hd hc0, List.reverse_reverse, List.map_map]
  rw [show (digitToChar ∘ charDigitVal) = fun ch => digitToChar (charDigitVal ch)
    from rfl]
  have : ∀ x ∈ c :: t, digitToChar (charDigitVal x) = x := by
    intro x hx
    exact (charDigitVal_spec x (List.all_eq_true.mp hd x hx)).2.1
  calc (c :: t).map (fun ch => digitToChar (charDigitVal ch))
      = (c :: t).map id := List.map_congr_left this
    _ = c :: t := List.map_id _

theorem strToNat_cons_zero (t : Str) : strToNat ('0' :: t) = strToNat t := rfl

theorem strToNat_replicate_zero (j : Nat) :
    strToNat (List.replicate j '0') = 0 := by
  induction j with
  | zero => rfl
  | succ n ih =>
    rw [List.replicate_succ, strToNat_cons_zero]
    exact ih

theorem strToNat_strip (j : Nat) (t : Str) :
    strToNat (List.replicate j '0' ++ t) = strToNat t := by
  rw [strToNat_append, strToNat_replicate_zero]
  simp

theorem exists_strip_zeros (s : Str) (hd : s.all isDecDigit = true) :
    ∃ j t, s = List.replicate j '0' ++ t ∧ t.all isDecDigit = true ∧
      (t = [] ∨ ∃ c u, t = c :: u ∧ c ≠ '0') := by
  induction s with
  | nil => exact ⟨0, [], rfl, rfl, Or.inl rfl⟩
  | cons c u ih =>
    have hdu : u.all isDecDigit = true := by
      rw [List.all_cons, Bool.and_eq_true] at hd
      exact hd.2
    by_cases hc : c = '0'
    · obtain ⟨j, t, heq, htd, hcanon⟩ := ih hdu
      subst hc
      exact ⟨j + 1, t,
        by rw [List.replicate_succ, List.cons_append, heq], htd, hcanon⟩
    · exact ⟨0, c :: u, rfl, hd, Or.inr ⟨c, u, rfl, hc⟩⟩

theorem chunk_eq_pad (f18 : Str) (hd : f18.all isDecDigit = true)
    (hlen : f18.length = 18) :
    List.replicate (18 - (Nat.digits 10 (strToNat f18)).length) '0' ++
      (Nat.digits 10 (strToNat f18)).reverse.map digitToChar = f18 ∧
    (Nat.digits 10 (strToNat f18)).length ≤ 18 := by
  obtain ⟨j, t, heq, htd, hcanon⟩ := exists_strip_zeros f18 hd
  rcases hcanon with rfl | ⟨c, u, rfl, hc0⟩
  · have hj : j = 18 := by
      rw [heq] at hlen
      simpa using hlen
    have hzero : strToNat f18 = 0 := by
      rw [heq, strToNat_strip]
      rfl
    rw [hzero]
    simp only [Nat.digits_zero, List.length_nil, Nat.sub_zero,
      List.reverse_nil, List.map_nil, List.append_nil]
    constructor
    · rw [heq, hj]
      simp
    · omega
  · have hstf : strToNat f18 = strToNat (c :: u) := by
      rw [heq, strToNat_strip]
    have hne := strToNat_ne_zero c u htd hc0
    have h1 : (Nat.digits 10 (strToNat f18)).reverse.map digitToChar = c :: u := by
      rw [hstf, ← natDecRepr_eq_digits _ hne]
      exact natDecRepr_strToNat c u htd hc0
    have hlend : (Nat.digits 10 (strToNat f18)).length = (c :: u).length := by
      rw [hstf, digits_strToNat c u htd hc0]
      simp
    have hjlen : j + (c :: u).length = 18 := by
      rw [heq] at hlen
      simpa using hlen
    rw [h1, hlend]
    constructor
    · rw [show 18 - (c :: u).length = j from by omega]
      exact heq.symm
    · omega

theorem dropWhile_replicate_zero_append (k : Nat) (l : List Char) :
    List.dropWhile (fun c => c = '0') (List.replicate k '0' ++ l) =
      List.dropWhile (fun c => c = '0') l := by
  induction k with
  | zero => rfl
  | succ n ih =>
    rw [List.replicate_succ, List.cons_append,
      List.dropWhile_cons_of_pos (by decide)]
    exact ih

theorem trimTrailingZeros_append_zeros (a : Str) (k : Nat) :
    trimTrailingZeros (a ++ List.replicate k '0') = trimTrailingZeros a := by
  unfold trimTrailingZeros
  rw [List.reverse_append, List.reverse_replicate,
    dropWhile_replicate_zero_append]

theorem dropWhile_idem (p : Char → Bool) (l : List Char) :
    List.dropWhile p (List.dropWhile p l) = List.dropWhile p l := by
  induction l with
  | nil => rfl
  | cons c t ih =>
    by_cases hp : p c = true
    · rw [List.dropWhile_cons_of_pos hp]
      exact ih
    · rw [List.dropWhile_cons_of_neg hp, List.dropWhile_cons_of_neg hp]

theorem trimTrailingZeros_idem (s : Str) :
    trimTrailingZeros (trimTrailingZeros s) = trimTrailingZeros s := by
  unfold trimTrailingZeros
  rw [List.reverse_reverse, dropWhile_idem]

theorem trimTrailingZeros_all (s : Str) (p : Char → Bool)
    (h : s.all p = true) : (trimTrailingZeros s).all p = true := by
  rw [List.all_eq_true] at h ⊢
  intro x hx
  apply h
  unfold trimTrailingZeros at hx
  rw [List.mem_reverse] at hx
  exact List.mem_reverse.mp ((List.dropWhile_sublist _).mem hx)

theorem trimTrailingZeros_length_le (s : Str) :
    (trimTrailingZeros s).length ≤ s.length := by
  unfold trimTrailingZeros
  simpa using (List.dropWhile_sublist (fun c => c = '0') (l := s.reverse)).length_le

theorem takeWhile_append_all (p : Char → Bool) (a b : Str)
    (h : a.all p = true) : (a ++ b).takeWhile p = a ++ b.takeWhile p := by
  induction a with
  | nil => rfl
  | cons c t ih =>
    rw [List.all_cons, Bool.and_eq_true] at h
    rw [List.cons_append, List.takeWhile_cons_of_pos h.1, ih h.2,
      List.cons_append]

theorem dropWhile_append_all (p : Char → Bool) (a b : Str)
    (h : a.all p = true) : (a ++ b).dropWhile p = b.dropWhile p := by
  induction a with
  | nil => rfl
  | cons c t ih =>
    rw [List.all_cons, Bool.and_eq_true] at h
    rw [List.cons_append, List.dropWhile_cons_of_pos h.1, ih h.2]

theorem dropWhile_head_false (p : Char → Bool) :
    ∀ (l : List Char) (c : Char) (t : List Char),
      l.dropWhile p = c :: t → p c = false := by
  intro l
  induction l with
  | nil =>
    intro c t h
    exact absurd h (by simp)
  | cons x xs ih =>
    intro c t h
    by_cases hp : p x = true
    · rw [List.dropWhile_cons_of_pos hp] at h
      exact ih c t h
    · rw [List.dropWhile_cons_of_neg hp] at h
      cases h
      simpa using hp

theorem digits_length_le_18 (F : Nat) (h : F < 10 ^ 18) :
    (Nat.digits 10 F).length ≤ 18 := by
  by_cases hF : F = 0
  · subst hF
    simp
  · have h1 := Nat.base_pow_length_digits_le 10 F (by norm_num) hF
    have h2 : (10:Nat) ^ (Nat.digits 10 F).length < 10 ^ 19 := by
      calc (10:Nat) ^ (Nat.digits 10 F).length ≤ 10 * F := h1
        _ < 10 * 10 ^ 18 := by omega
        _ = 10 ^ 19 := by norm_num
    have h3 := (Nat.pow_lt_pow_iff_right (by norm_num : 1 < 10)).mp h2
    omega

theorem formatUnits18_parts (ip f18 : Str)
    (hip : ip.all isDecDigit = true)
    (hcanon : ip = ['0'] ∨ ∃ c t, ip = c :: t ∧ c ≠ '0')
    (hf : f18.all isDecDigit = true) (hlen : f18.length = 18)
    (hne : strToNat (ip ++ f18) ≠ 0) :
    formatUnits18 (strToNat (ip ++ f18)) =
      ip ++ (if trimTrailingZeros f18 = [] then []
             else '.' :: trimTrailingZeros f18) := by
  have happ : strToNat (ip ++ f18) = strToNat ip * 10 ^ 18 + strToNat f18 := by
    rw [strToNat_append, hlen]
  have hFlt : strToNat f18 < 10 ^ 18 := by
    have := strToNat_lt f18 hf
    rwa [hlen] at this
  obtain ⟨hchunk, hdlen⟩ := chunk_eq_pad f18 hf hlen
  rcases hcanon with hip0 | ⟨c, t, hipc, hc0⟩
  · have hI : strToNat ip = 0 := by
      rw [hip0]
      rfl
    have hn : strToNat (ip ++ f18) = strToNat f18 := by
      rw [happ, hI]
      ring
    have hF0 : strToNat f18 ≠ 0 := by
      rw [← hn]
      exact hne
    simp only [formatUnits18]
    rw [hn, natDecRepr_eq_digits _ hF0]
    rw [show ((Nat.digits 10 (strToNat f18)).reverse.map digitToChar).length =
      (Nat.digits 10 (strToNat f18)).length from by simp]
    rw [hchunk, hlen]
    simp only [Nat.sub_self, List.take_zero, List.drop_zero, List.isEmpty_nil,
      if_true, List.nil_append]
    rw [hip0]
    by_cases htr : trimTrailingZeros f18 = []
    · rw [htr]
      simp
    · rw [if_neg (by simpa [List.isEmpty_iff] using htr), if_neg htr]
  · have hipa : ip.all isDecDigit = true := hip
    rw [hipc] at hipa
    have hI0 : strToNat ip ≠ 0 := by
      rw [hipc]
      exact strToNat_ne_zero c t hipa hc0
    have hk : (Nat.digits 10 (strToNat f18)).length +
        (18 - (Nat.digits 10 (strToNat f18)).length) = 18 := by omega
    have hsplit := Nat.digits_append_zeroes_append_digits
      (b := 10) (k := 18 - (Nat.digits 10 (strToNat f18)).length)
      (m := strToNat ip) (n := strToNat f18)
      (by norm_num) (Nat.pos_of_ne_zero hI0)
    rw [hk] at hsplit
    have hnval : strToNat f18 + 10 ^ 18 * strToNat ip = strToNat (ip ++ f18) := by
      rw [happ]
      ring
    rw [hnval] at hsplit
    simp only [formatUnits18]
    rw [natDecRepr_eq_digits _ hne, ← hsplit]
    have hdisp : ((Nat.digits 10 (strToNat f18) ++
        List.replicate (18 - (Nat.digits 10 (strToNat f18)).length) 0 ++
        Nat.digits 10 (strToNat ip)).reverse.map digitToChar) =
        (Nat.digits 10 (strToNat ip)).reverse.map digitToChar ++
          (List.replicate (18 - (Nat.digits 10 (strToNat f18)).length) '0' ++
            (Nat.digits 10 (strToNat f18)).reverse.map digitToChar) := by
      simp [List.reverse_append, List.map_replicate,
        show digitToChar 0 = '0' from rfl]
    rw [hdisp, hchunk]
    have hipr : (Nat.digits 10 (strToNat ip)).reverse.map digitToChar = ip := by
      rw [← natDecRepr_eq_digits _ hI0, hipc]
      exact natDecRepr_strToNat c t hipa hc0
    rw [hipr]
    have hlen2 : (ip ++ f18).length = ip.length + 18 := by
      rw [List.length_append, hlen]
    have hiplen : 1 ≤ ip.length := by
      rw [hipc]
      simp
    rw [hlen2, show 18 - (ip.length + 18) = 0 from by omega]
    simp only [List.replicate_zero, List.nil_append]
    rw [hlen2, show ip.length + 18 - 18 = ip.length from by omega]
    rw [List.take_left ip f18, List.drop_left ip f18]
    rw [if_neg (by rw [hipc]; simp)]
    by_cases htr : trimTrailingZeros f18 = []
    · rw [htr]
      simp
    · rw [if_neg (by simpa [List.isEmpty_iff] using htr), if_neg htr]

theorem isIntToken_spec (s : Str) (h : isIntToken s = true) :
    s.all isDecDigit = true ∧ (s = ['0'] ∨ ∃ c t, s = c :: t ∧ c ≠ '0') := by
  cases s with
  | nil => exact absurd h (by simp [isIntToken])
  | cons c rest =>
    cases rest with
    | nil =>
      simp only [isIntToken, List.isEmpty_nil, if_true] at h
      refine ⟨by simp [h], ?_⟩
      by_cases hc : c = '0'
      · subst hc
        exact Or.inl rfl
      · exact Or.inr ⟨c, [], rfl, hc⟩
    | cons c2 rest2 =>
      rw [show isIntToken (c :: c2 :: rest2) =
        (('1' ≤ c && c ≤ '9') && (c2 :: rest2).all isDecDigit) from rfl] at h
      rw [Bool.and_eq_true, Bool.and_eq_true, decide_eq_true_eq,
        decide_eq_true_eq] at h
      obtain ⟨⟨h1, h2⟩, hall⟩ := h
      have h1n : 49 ≤ c.toNat := h1
      have hcdigit : isDecDigit c = true := by
        rw [isDecDigit, Bool.and_eq_true, decide_eq_true_eq, decide_eq_true_eq]
        exact ⟨by change 48 ≤ c.toNat; omega, h2⟩
      refine ⟨?_, Or.inr ⟨c, c2 :: rest2, rfl, ?_⟩⟩
      · rw [List.all_cons, Bool.and_eq_true]
        exact ⟨hcdigit, hall⟩
      · intro hcon
        rw [hcon] at h1n
        exact absurd h1n (by decide)

theorem takeWhile_all_eq (p : Char → Bool) (l : Str) (h : l.all p = true) :
    l.takeWhile p = l := by
  induction l with
  | nil => rfl
  | cons c t ih =>
    rw [List.all_cons, Bool.and_eq_true] at h
    rw [List.takeWhile_cons_of_pos h.1, ih h.2]

theorem dropWhile_all_eq (p : Char → Bool) (l : Str) (h : l.all p = true) :
    l.dropWhile p = [] := by
  induction l with
  | nil => rfl
  | cons c t ih =>
    rw [List.all_cons, Bool.and_eq_true] at h
    rw [List.dropWhile_cons_of_pos h.1, ih h.2]

theorem all_ne_dot_of_dec (l : Str) (h : l.all isDecDigit = true) :
    l.all (fun c => c ≠ '.') = true := by
  rw [List.all_eq_true] at h ⊢
  intro x hx
  exact decide_eq_true (isDecDigit_ne_dot x (h x hx))

theorem formatCrcAmount_parts (n : Nat) (ip ft : Str)
    (hout : formatUnits18 n = ip ++ (if ft = [] then [] else '.' :: ft))
    (hip : ip.all isDecDigit = true) (_hipne : ip ≠ [])
    (htrim : trimTrailingZeros ft = ft) :
    formatCrcAmount n = ip ++ (if ft = [] then [] else '.' :: ft) := by
  have hipdot : ip.all (fun c => c ≠ '.') = true := all_ne_dot_of_dec ip hip
  simp only [formatCrcAmount, dotSplitWhole, dotSplitFrac]
  rw [hout]
  by_cases hft : ft = []
  · rw [hft]
    simp only [if_true, List.append_nil]
    rw [takeWhile_all_eq _ ip hipdot, dropWhile_all_eq _ ip hipdot]
    rfl
  · rw [if_neg hft]
    rw [takeWhile_append_all _ ip ('.' :: ft) hipdot,
      dropWhile_append_all _ ip ('.' :: ft) hipdot]
    rw [List.takeWhile_cons_of_neg (by decide), List.dropWhile_cons_of_neg (by decide)]
    simp only [List.append_nil, List.drop_one, List.tail_cons]
    rw [htrim]
    rw [if_neg (by simpa [List.isEmpty_iff] using hft)]

/-- Claim C3 (amended): for every decimal string matching the amount
grammar (digits with an optional fractional part of at most 18 digits)
whose value is positive, `parseAmountToAtto` succeeds with the
atto-scaled value, and converting back with `formatCrcAmount` yields the
input with its trailing fractional zeros (and a then-empty fraction's
dot) removed; in particular the round trip returns the input exactly
whenever the input has no trailing fractional zeros. -/
theorem c3_amount_round_trip (s field : Str)
    (hpat : amountPatternMatch s = true)
    (hpos : parseUnits18 s ≠ 0) :
    parseAmountToAtto s field = .ok (parseUnits18 s) ∧
    formatCrcAmount (parseUnits18 s) = trimAmountStr s ∧
    (trimTrailingZeros (dotSplitFrac s) = dotSplitFrac s → trimAmountStr s = s) := by
  have hok : parseAmountToAtto s field = .ok (parseUnits18 s) := by
    unfold parseAmountToAtto
    rw [if_neg (by simp [hpat]), if_neg (by omega)]
  refine ⟨hok, ?_⟩
  have hsplit : dotSplitWhole s ++ s.dropWhile (fun c => c ≠ '.') = s :=
    List.takeWhile_append_dropWhile _ _
  cases hdrop : s.dropWhile (fun c => c ≠ '.') with
  | nil =>
    have hs : s = dotSplitWhole s := by
      conv_lhs => rw [← hsplit, hdrop, List.append_nil]
    have hint : isIntToken (dotSplitWhole s) = true := by
      unfold amountPatternMatch at hpat
      rw [hdrop] at hpat
      exact hpat
    obtain ⟨hall, hcanon⟩ := isIntToken_spec _ hint
    have hfrac : (s.dropWhile (fun c => c ≠ '.')).isEmpty = true := by
      rw [hdrop]
      rfl
    have hpu : parseUnits18 s =
        strToNat (dotSplitWhole s ++ List.replicate 18 '0') := by
      simp only [parseUnits18, hfrac, if_true]
      rfl
    have hf18d : (List.replicate 18 '0' : Str).all isDecDigit = true := by decide
    have htrim0 : trimTrailingZeros (List.replicate 18 '0' : Str) = [] := by decide
    have hfmt := formatUnits18_parts (dotSplitWhole s) (List.replicate 18 '0')
      hall hcanon hf18d (by simp) (by rw [← hpu]; exact hpos)
    rw [htrim0, if_pos rfl] at hfmt
    rw [← hpu] at hfmt
    have hcrc := formatCrcAmount_parts (parseUnits18 s) (dotSplitWhole s) []
      (by rw [hfmt]; rfl) hall
      (by
        rcases hcanon with h | ⟨c, t, hct, hcc⟩
        · simp [h]
        · simp [hct]) (by rfl)
    rw [if_pos rfl, List.append_nil] at hcrc
    have htas : trimAmountStr s = s := by
      unfold trimAmountStr
      rw [hdrop]
    refine ⟨by rw [hcrc, ← hs, htas], fun _ => htas⟩
  | cons d fp =>
    have hdne := dropWhile_head_false _ s d fp hdrop
    have hdot : d = '.' := by simpa using hdne
    subst hdot
    have hpat2 := hpat
    unfold amountPatternMatch at hpat2
    rw [hdrop] at hpat2
    rw [Bool.and_eq_true, Bool.and_eq_true, Bool.and_eq_true,
      decide_eq_true_eq, decide_eq_true_eq] at hpat2
    obtain ⟨⟨⟨hint, hfpd⟩, hfp1⟩, hfp18⟩ := hpat2
    obtain ⟨hall, hcanon⟩ := isIntToken_spec _ hint
    have hipne : dotSplitWhole s ≠ [] := by
      rcases hcanon with h | ⟨c, t, hct, hcc⟩
      · simp [h]
      · simp [hct]
    have hseq : dotSplitWhole s ++ '.' :: fp = s := by
      conv_rhs => rw [← hsplit, hdrop]
    have hfrac : (s.dropWhile (fun c => c ≠ '.')).isEmpty = false := by
      rw [hdrop]
      rfl
    have hfp : dotSplitFrac s = fp := by
      unfold dotSplitFrac
      rw [hdrop]
      rfl
    have hpu : parseUnits18 s = strToNat (dotSplitWhole s ++
        (trimTrailingZeros fp ++
          List.replicate (18 - (trimTrailingZeros fp).length) '0')) := by
      simp only [parseUnits18, hfrac, Bool.false_eq_true, if_false, hfp]
    have hftlen : (trimTrailingZeros fp).length ≤ 18 :=
      le_trans (trimTrailingZeros_length_le fp) hfp18
    have hf18d : (trimTrailingZeros fp ++
        List.replicate (18 - (trimTrailingZeros fp).length) '0').all
          isDecDigit = true := by
      rw [List.all_append, Bool.and_eq_true]
      refine ⟨trimTrailingZeros_all fp _ hfpd, ?_⟩
      rw [List.all_eq_true]
      intro x hx
      rw [List.eq_of_mem_replicate hx]
      decide
    have hf18len : (trimTrailingZeros fp ++
        List.replicate (18 - (trimTrailingZeros fp).length) '0').length = 18 := by
      rw [List.length_append, List.length_replicate]
      omega
    have hfmt := formatUnits18_parts (dotSplitWhole s) _
      hall hcanon hf18d hf18len (by rw [← hpu]; exact hpos)
    rw [trimTrailingZeros_append_zeros, trimTrailingZeros_idem] at hfmt
    rw [← hpu] at hfmt
    have hcrc := formatCrcAmount_parts (parseUnits18 s) (dotSplitWhole s)
      (trimTrailingZeros fp) hfmt hall hipne (trimTrailingZeros_idem fp)
    have htas : trimAmountStr s =
        (if trimTrailingZeros fp = [] then dotSplitWhole s
         else dotSplitWhole s ++ '.' :: trimTrailingZeros fp) := by
      unfold trimAmountStr
      rw [hdrop]
      by_cases htr : trimTrailingZeros fp = []
      · simp [htr]
      · simp [htr, List.isEmpty_iff]
    refine ⟨?_, ?_⟩
    · rw [hcrc, htas]
      by_cases htr : trimTrailingZeros fp = []
      · simp [htr]
      · simp [htr]
    · intro htrfp
      rw [hfp] at htrfp
      rw [htas, htrfp]
      have hfpne : fp ≠ [] := by
        intro hcon
        rw [hcon] at hfp1
        exact absurd hfp1 (by decide)
      rw [if_neg hfpne]
      exact hseq

/-- Counterexample to claim C3 as stated: `"1.50"` matches the amount
grammar with positive value, but the round trip yields `"1.5"`, not the
input itself — `formatCrcAmount` trims the trailing fractional zero. -/
theorem c3_counterexample :
    amountPatternMatch ("1.50").data = true ∧
    parseAmountToAtto ("1.50").data ("SOLO_ENTRY_FEE_CRC").data =
      .ok 1500000000000000000 ∧
    formatCrcAmount 1500000000000000000 = ("1.5").data ∧
    ("1.5").data ≠ ("1.50").data := by
  refine ⟨by decide, by rfl, by decide, by decide⟩

/-- Closed instance of `c3_amount_round_trip` at the input `"7.25"`,
which has no trailing fractional zeros and round-trips exactly. -/
theorem c3_amount_round_trip_witness :
    parseAmountToAtto ("7.25").data ("payment.amountCRC").data =
      .ok (parseUnits18 ("7.25").data) ∧
    formatCrcAmount (parseUnits18 ("7.25").data) = trimAmountStr ("7.25").data ∧
    (trimTrailingZeros (dotSplitFrac ("7.25").data) =
      dotSplitFrac ("7.25").data → trimAmountStr ("7.25").data = ("7.25").data) :=
  c3_amount_round_trip ("7.25").data ("payment.amountCRC").data
    (by decide) (by decide)

theorem isLowerHexDigit_toNat (c : Char) (h : isLowerHexDigit c = true) :
    (48 ≤ c.toNat ∧ c.toNat ≤ 57) ∨ (97 ≤ c.toNat ∧ c.toNat ≤ 102) := by
  rw [isLowerHexDigit, Bool.or_eq_true, Bool.and_eq_true, Bool.and_eq_true,
    decide_eq_true_eq, decide_eq_true_eq, decide_eq_true_eq,
    decide_eq_true_eq] at h
  rcases h with ⟨h1, h2⟩ | ⟨h1, h2⟩
  · exact Or.inl ⟨h1, h2⟩
  · exact Or.inr ⟨h1, h2⟩

theorem hexChar_not_space (c : Char) (h : isLowerHexDigit c = true) :
    jsIsSpace c = false := by
  have hb := isLowerHexDigit_toNat c h
  by_contra hcon
  rw [Bool.not_eq_false, jsIsSpace] at hcon
  simp only [Bool.or_eq_true, decide_eq_true_eq] at hcon
  rcases hcon with ((((hc | hc) | hc) | hc) | hc) | hc <;>
    (rw [hc] at hb; revert hb; decide)

theorem hexChar_lower_fix (c : Char) (h : isLowerHexDigit c = true) :
    jsToLowerChar c = c := by
  have hb := isLowerHexDigit_toNat c h
  unfold jsToLowerChar
  rw [if_neg]
  rw [Bool.and_eq_true, decide_eq_true_eq, decide_eq_true_eq]
  rintro ⟨h1, h2⟩
  have h1n : 65 ≤ c.toNat := h1
  have h2n : c.toNat ≤ 90 := h2
  omega

theorem hexChar_ne (c : Char) (h : isLowerHexDigit c = true) :
    c ≠ '\\' ∧ c ≠ 'x' := by
  have hb := isLowerHexDigit_toNat c h
  constructor
  · intro hcon
    rw [hcon] at hb
    revert hb
    decide
  · intro hcon
    rw [hcon] at hb
    revert hb
    decide

theorem hexChar_ci (c : Char) (h : isLowerHexDigit c = true) :
    isHexDigitCI c = true := by
  rw [isLowerHexDigit, Bool.or_eq_true] at h
  rw [isHexDigitCI, Bool.or_eq_true, Bool.or_eq_true]
  exact Or.inl h

theorem trimStr_of_no_space (s : Str)
    (h : s.all (fun c => !jsIsSpace c) = true) : trimStr s = s := by
  have hdrop : ∀ (l : Str), l.all (fun c => !jsIsSpace c) = true →
      l.dropWhile jsIsSpace = l := by
    intro l hl
    cases l with
    | nil => rfl
    | cons c t =>
      rw [List.all_cons, Bool.and_eq_true] at hl
      rw [List.dropWhile_cons_of_neg (by simpa using hl.1)]
  unfold trimStr
  rw [hdrop s h, hdrop s.reverse (by simpa [List.all_reverse] using h),
    List.reverse_reverse]

theorem jsToLower_fix (s : Str) (h : ∀ c ∈ s, jsToLowerChar c = c) :
    jsToLower s = s := by
  unfold jsToLower
  calc s.map jsToLowerChar = s.map id := List.map_congr_left h
    _ = s := List.map_id s

theorem normalizeString_of_hex (s : Str) (h : s.all isLowerHexDigit = true) :
    normalizeString s = s := by
  unfold normalizeString
  rw [trimStr_of_no_space s (by
    rw [List.all_eq_true] at h ⊢
    intro x hx
    simpa using hexChar_not_space x (h x hx))]
  exact jsToLower_fix s
    (fun c hc => hexChar_lower_fix c (List.all_eq_true.mp h c hc))

theorem charDigitVal_digitToChar (d : Nat) (h : d < 16) :
    charDigitVal (digitToChar d) = d := by
  interval_cases d <;> rfl

theorem digitToChar_lower_hex (d : Nat) (h : d < 16) :
    isLowerHexDigit (digitToChar d) = true := by
  interval_cases d <;> rfl

theorem hexPairsToBytes_flatMap (bytes : List Nat) (h : ∀ b ∈ bytes, b < 256) :
    hexPairsToBytes (bytes.flatMap byteToHexStr) = bytes := by
  induction bytes with
  | nil => rfl
  | cons b rest ih =>
    have hb : b < 256 := h b (List.mem_cons_self b rest)
    rw [List.flatMap_cons]
    rw [show byteToHexStr b = [digitToChar (b / 16), digitToChar (b % 16)]
      from rfl]
    rw [List.cons_append, List.cons_append, List.nil_append]
    rw [show hexPairsToBytes (digitToChar (b / 16) :: digitToChar (b % 16) ::
        rest.flatMap byteToHexStr) =
      (16 * charDigitVal (digitToChar (b / 16)) +
        charDigitVal (digitToChar (b % 16))) ::
        hexPairsToBytes (rest.flatMap byteToHexStr) from rfl]
    rw [charDigitVal_digitToChar (b / 16) (by omega),
      charDigitVal_digitToChar (b % 16) (by omega)]
    rw [ih (fun x hx => h x (List.mem_cons_of_mem b hx))]
    congr 1
    omega

theorem flatMap_byteToHexStr_length (bytes : List Nat) :
    (bytes.flatMap byteToHexStr).length = 2 * bytes.length := by
  induction bytes with
  | nil => rfl
  | cons b rest ih =>
    rw [List.flatMap_cons, List.length_append, ih,
      show (byteToHexStr b).length = 2 from rfl, List.length_cons]
    omega

theorem flatMap_byteToHexStr_hex (bytes : List Nat) (h : ∀ b ∈ bytes, b < 256) :
    (bytes.flatMap byteToHexStr).all isLowerHexDigit = true := by
  rw [List.all_eq_true]
  intro x hx
  rw [List.mem_flatMap] at hx
  obtain ⟨b, hb, hxb⟩ := hx
  have hb2 : b < 256 := h b hb
  rw [show byteToHexStr b = [digitToChar (b / 16), digitToChar (b % 16)]
    from rfl] at hxb
  rcases List.mem_cons.mp hxb with hx1 | hx1
  · rw [hx1]
    exact digitToChar_lower_hex (b / 16) (by omega)
  · rcases List.mem_cons.mp hx1 with hx2 | hx2
    · rw [hx2]
      exact digitToChar_lower_hex (b % 16) (by omega)
    · exact absurd hx2 (List.not_mem_nil x)

theorem char_toNat_valid (c : Char) :
    c.toNat < 0xd800 ∨ (0xdfff < c.toNat ∧ c.toNat < 0x110000) :=
  c.valid

theorem utf8DecodeStep_shrink (b0 : Nat) (rest : List Nat) :
    (utf8DecodeStep b0 rest).2.length ≤ rest.length := by
  simp only [utf8DecodeStep]
  repeat' split
  all_goals simp_all
  all_goals omega

theorem utf8DecodeGo_fuel (fuel1 : Nat) :
    ∀ (l : List Nat) (fuel2 : Nat), l.length ≤ fuel1 → l.length ≤ fuel2 →
      utf8DecodeGo fuel1 l = utf8DecodeGo fuel2 l := by
  induction fuel1 with
  | zero =>
    intro l fuel2 h1 _
    have hnil : l = [] := List.length_eq_zero.mp (Nat.le_zero.mp h1)
    subst hnil
    cases fuel2 <;> rfl
  | succ f1 ih =>
    intro l fuel2 h1 h2
    cases l with
    | nil => cases fuel2 <;> rfl
    | cons b0 rest =>
      cases fuel2 with
      | zero => simp at h2
      | succ f2 =>
        simp only [utf8DecodeGo]
        have hs := utf8DecodeStep_shrink b0 rest
        have hl1 : rest.length ≤ f1 := by simp at h1; omega
        have hl2 : rest.length ≤ f2 := by simp at h2; omega
        rw [ih (utf8DecodeStep b0 rest).2 f2 (le_trans hs hl1)
          (le_trans hs hl2)]

set_option maxHeartbeats 1600000 in
theorem utf8DecodeStep_encodeChar (c : Char) (b0 : Nat) (bs tail : List Nat)
    (henc : utf8EncodeChar c = b0 :: bs) :
    utf8DecodeStep b0 (bs ++ tail) = (c, tail) := by
  have hvalid := char_toNat_valid c
  have hofnat := Char.ofNat_toNat c
  by_cases h1 : c.toNat < 0x80
  · rw [show utf8EncodeChar c = [c.toNat] from by
      simp only [utf8EncodeChar]
      rw [if_pos h1]] at henc
    injection henc with hb0 hbs
    subst hb0
    subst hbs
    rw [List.nil_append]
    simp only [utf8DecodeStep]
    rw [if_pos h1, hofnat]
  · by_cases h2 : c.toNat < 0x800
    · rw [show utf8EncodeChar c =
        [0xC0 + c.toNat / 64, 0x80 + c.toNat % 64] from by
        simp only [utf8EncodeChar]
        rw [if_neg h1, if_pos h2]] at henc
      injection henc with hb0 hbs
      subst hb0
      subst hbs
      have hb0a : ¬(0xC0 + c.toNat / 64 < 0x80) := by omega
      have hb0b : ¬(0xC0 + c.toNat / 64 < 0xC2) := by omega
      have hb0c : 0xC0 + c.toNat / 64 < 0xE0 := by omega
      have hcont : utf8IsCont (0x80 + c.toNat % 64) = true := by
        simp only [utf8IsCont, Bool.and_eq_true, decide_eq_true_eq]
        omega
      rw [List.cons_append, List.nil_append]
      simp only [utf8DecodeStep]
      rw [if_neg hb0a, if_neg hb0b, if_pos hb0c]
      simp only [hcont, if_true]
      rw [show (0xC0 + c.toNat / 64 - 0xC0) * 64 + (0x80 + c.toNat % 64 - 0x80) =
        c.toNat from by omega]
      rw [hofnat]
    · by_cases h3 : c.toNat < 0x10000
      · rw [show utf8EncodeChar c =
          [0xE0 + c.toNat / 4096, 0x80 + c.toNat / 64 % 64,
           0x80 + c.toNat % 64] from by
          simp only [utf8EncodeChar]
          rw [if_neg h1, if_neg h2, if_pos h3]] at henc
        injection henc with hb0 hbs
        subst hb0
        subst hbs
        have hb0a : ¬(0xE0 + c.toNat / 4096 < 0x80) := by omega
        have hb0b : ¬(0xE0 + c.toNat / 4096 < 0xC2) := by omega
        have hb0c : ¬(0xE0 + c.toNat / 4096 < 0xE0) := by omega
        have hb0d : 0xE0 + c.toNat / 4096 < 0xF0 := by omega
        have hv : (0xE0 + c.toNat / 4096 - 0xE0) * 4096 +
            (0x80 + c.toNat / 64 % 64 - 0x80) * 64 +
            (0x80 + c.toNat % 64 - 0x80) = c.toNat := by omega
        have hcheck : (utf8IsCont (0x80 + c.toNat / 64 % 64) &&
            utf8IsCont (0x80 + c.toNat % 64) &&
            decide (0x800 ≤ (0xE0 + c.toNat / 4096 - 0xE0) * 4096 +
              (0x80 + c.toNat / 64 % 64 - 0x80) * 64 +
              (0x80 + c.toNat % 64 - 0x80)) &&
            !(decide (0xD800 ≤ (0xE0 + c.toNat / 4096 - 0xE0) * 4096 +
              (0x80 + c.toNat / 64 % 64 - 0x80) * 64 +
              (0x80 + c.toNat % 64 - 0x80)) &&
              decide ((0xE0 + c.toNat / 4096 - 0xE0) * 4096 +
                (0x80 + c.toNat / 64 % 64 - 0x80) * 64 +
                (0x80 + c.toNat % 64 - 0x80) < 0xE000))) = true := by
          rw [hv]
          simp only [utf8IsCont, Bool.and_eq_true, Bool.not_eq_true',
            Bool.and_eq_false_iff, decide_eq_true_eq, decide_eq_false_iff_not]
          refine ⟨⟨⟨by omega, by omega⟩, by omega⟩, ?_⟩
          rcases hvalid with hv1 | ⟨hv1, hv2⟩
          · exact Or.inl (by omega)
          · exact Or.inr (by omega)
        rw [List.cons_append, List.cons_append, List.nil_append]
        simp only [utf8DecodeStep]
        rw [if_neg hb0a, if_neg hb0b, if_neg hb0c, if_pos hb0d]
        simp only [hcheck, if_true]
        rw [hv, hofnat]
      · rw [show utf8EncodeChar c =
          [0xF0 + c.toNat / 262144, 0x80 + c.toNat / 4096 % 64,
           0x80 + c.toNat / 64 % 64, 0x80 + c.toNat % 64] from by
          simp only [utf8EncodeChar]
          rw [if_neg h1, if_neg h2, if_neg h3]] at henc
        injection henc with hb0 hbs
        subst hb0
        subst hbs
        have hlt : c.toNat < 0x110000 := by
          rcases hvalid with hv1 | ⟨hv1, hv2⟩
          · omega
          · omega
        have hb0a : ¬(0xF0 + c.toNat / 262144 < 0x80) := by omega
        have hb0b : ¬(0xF0 + c.toNat / 262144 < 0xC2) := by omega
        have hb0c : ¬(0xF0 + c.toNat / 262144 < 0xE0) := by omega
        have hb0d : ¬(0xF0 + c.toNat / 262144 < 0xF0) := by omega
        have hb0e : 0xF0 + c.toNat / 262144 < 0xF5 := by omega
        have hv : (0xF0 + c.toNat / 262144 - 0xF0) * 262144 +
            (0x80 + c.toNat / 4096 % 64 - 0x80) * 4096 +
            (0x80 + c.toNat / 64 % 64 - 0x80) * 64 +
            (0x80 + c.toNat % 64 - 0x80) = c.toNat := by omega
        have hcheck : (utf8IsCont (0x80 + c.toNat / 4096 % 64) &&
            utf8IsCont (0x80 + c.toNat / 64 % 64) &&
            utf8IsCont (0x80 + c.toNat % 64) &&
            decide (0x10000 ≤ (0xF0 + c.toNat / 262144 - 0xF0) * 262144 +
              (0x80 + c.toNat / 4096 % 64 - 0x80) * 4096 +
              (0x80 + c.toNat / 64 % 64 - 0x80) * 64 +
              (0x80 + c.toNat % 64 - 0x80)) &&
            decide ((0xF0 + c.toNat / 262144 - 0xF0) * 262144 +
              (0x80 + c.toNat / 4096 % 64 - 0x80) * 4096 +
              (0x80 + c.toNat / 64 % 64 - 0x80) * 64 +
              (0x80 + c.toNat % 64 - 0x80) < 0x110000)) = true := by
          rw [hv]
          simp only [utf8IsCont, Bool.and_eq_true, decide_eq_true_eq]
          refine ⟨⟨⟨⟨by omega, by omega⟩, by omega⟩, by omega⟩, hlt⟩
        rw [List.cons_append, List.cons_append, List.cons_append,
          List.nil_append]
        simp only [utf8DecodeStep]
        rw [if_neg hb0a, if_neg hb0b, if_neg hb0c, if_neg hb0d, if_pos hb0e]
        simp only [hcheck, if_true]
        rw [hv, hofnat]

theorem utf8Decode_encodeChar (c : Char) (tail : List Nat) :
    utf8Decode (utf8EncodeChar c ++ tail) = c :: utf8Decode tail := by
  obtain ⟨b0, bs, henc⟩ : ∃ b0 bs, utf8EncodeChar c = b0 :: bs := by
    simp only [utf8EncodeChar]
    repeat' split
    all_goals exact ⟨_, _, rfl⟩
  rw [henc, List.cons_append]
  simp only [utf8Decode, List.length_cons]
  simp only [utf8DecodeGo]
  rw [utf8DecodeStep_encodeChar c b0 bs tail henc]
  show c :: utf8DecodeGo (bs ++ tail).length tail = c :: utf8Decode tail
  rw [utf8DecodeGo_fuel (bs ++ tail).length tail tail.length
    (by rw [List.length_append]; omega) le_rfl]
  rfl

theorem utf8Decode_encode (s : Str) : utf8Decode (utf8Encode s) = s := by
  induction s with
  | nil => rfl
  | cons c t ih =>
    rw [show utf8Encode (c :: t) = utf8EncodeChar c ++ utf8Encode t from
      List.flatMap_cons c t utf8EncodeChar]
    rw [utf8Decode_encodeChar, ih]

theorem utf8EncodeChar_lt (c : Char) : ∀ b ∈ utf8EncodeChar c, b < 256 := by
  intro b hb
  have hval : c.toNat < 0x110000 := by
    rcases char_toNat_valid c with h | ⟨h1, h2⟩ <;> omega
  simp only [utf8EncodeChar] at hb
  repeat' split at hb
  all_goals simp only [List.mem_cons, List.not_mem_nil, or_false] at hb
  all_goals omega

theorem utf8Encode_lt (s : Str) : ∀ b ∈ utf8Encode s, b < 256 := by
  intro b hb
  rw [utf8Encode, List.mem_flatMap] at hb
  obtain ⟨c, _, hbc⟩ := hb
  exact utf8EncodeChar_lt c b hbc

theorem utf8EncodeChar_ne_nil (c : Char) : utf8EncodeChar c ≠ [] := by
  simp only [utf8EncodeChar]
  repeat' split
  all_goals simp

theorem utf8ToHex_hex (s : Str) :
    (utf8ToHex s).all isLowerHexDigit = true :=
  flatMap_byteToHexStr_hex (utf8Encode s) (utf8Encode_lt s)

theorem utf8ToHex_even (s : Str) : (utf8ToHex s).length % 2 = 0 := by
  rw [utf8ToHex, flatMap_byteToHexStr_length]
  omega

theorem hexPairsToBytes_utf8ToHex (s : Str) :
    hexPairsToBytes (utf8ToHex s) = utf8Encode s := by
  rw [utf8ToHex]
  exact hexPairsToBytes_flatMap (utf8Encode s) (utf8Encode_lt s)

theorem utf8ToHex_shape (s : Str) (h : s ≠ []) :
    ∃ c1 c2 rest, utf8ToHex s = c1 :: c2 :: rest ∧
      isLowerHexDigit c1 = true ∧ isLowerHexDigit c2 = true := by
  cases s with
  | nil => exact absurd rfl h
  | cons c t =>
    have hnn := utf8EncodeChar_ne_nil c
    cases henc : utf8EncodeChar c with
    | nil => exact absurd henc hnn
    | cons b bs =>
      have hb : b < 256 :=
        utf8EncodeChar_lt c b (by rw [henc]; exact List.mem_cons_self b bs)
      refine ⟨digitToChar (b / 16), digitToChar (b % 16),
        bs.flatMap byteToHexStr ++ (utf8Encode t).flatMap byteToHexStr,
        ?_, digitToChar_lower_hex _ (by omega), digitToChar_lower_hex _ (by omega)⟩
      rw [utf8ToHex, show utf8Encode (c :: t) = utf8EncodeChar c ++ utf8Encode t
        from List.flatMap_cons c t utf8EncodeChar, henc]
      rw [List.flatMap_append, List.flatMap_cons]
      rfl

theorem utf8ToHex_take2_ne (s : Str) (h : s ≠ []) :
    utf8ToHex s ≠ [] ∧ (utf8ToHex s).take 2 ≠ ['\\', 'x'] ∧
      (utf8ToHex s).take 2 ≠ ['0', 'x'] := by
  obtain ⟨c1, c2, rest, hsh, h1, h2⟩ := utf8ToHex_shape s h
  rw [hsh]
  refine ⟨by simp, ?_, ?_⟩
  · simp only [List.take_succ_cons, List.take_zero]
    intro hcon
    injection hcon with ha hb
    exact (hexChar_ne c1 h1).1 ha
  · simp only [List.take_succ_cons, List.take_zero]
    intro hcon
    injection hcon with ha hb
    injection hb with hb hc
    exact (hexChar_ne c2 h2).2 hb

theorem hexToUtf8_utf8ToHex (s : Str) (h : s ≠ []) :
    hexToUtf8 (utf8ToHex s) = some s := by
  obtain ⟨hne, _, htake⟩ := utf8ToHex_take2_ne s h
  simp only [hexToUtf8]
  rw [if_neg htake]
  rw [if_neg (by
    simp only [Bool.or_eq_true, decide_eq_true_eq, Bool.not_eq_true',
      not_or]
    refine ⟨⟨by simp [List.isEmpty_iff, hne], by simp [utf8ToHex_even s]⟩, ?_⟩
    have hall := utf8ToHex_hex s
    rw [List.all_eq_true] at hall
    have hCI : (utf8ToHex s).all isHexDigitCI = true := by
      rw [List.all_eq_true]
      intro c hc
      exact hexChar_ci c (hall c hc)
    simp [hCI])]
  rw [hexPairsToBytes_utf8ToHex, utf8Decode_encode]

theorem hexToUtf8_0x_utf8ToHex (s : Str) (h : s ≠ []) :
    hexToUtf8 ('0' :: 'x' :: utf8ToHex s) = some s := by
  obtain ⟨hne, _, _⟩ := utf8ToHex_take2_ne s h
  simp only [hexToUtf8]
  rw [show (if ('0' :: 'x' :: utf8ToHex s).take 2 = ['0', 'x']
      then ('0' :: 'x' :: utf8ToHex s).drop 2
      else ('0' :: 'x' :: utf8ToHex s)) = utf8ToHex s from by
    rw [if_pos (by simp)]
    rfl]
  rw [if_neg (by
    simp only [Bool.or_eq_true, decide_eq_true_eq, Bool.not_eq_true',
      not_or]
    refine ⟨⟨by simp [List.isEmpty_iff, hne], by simp [utf8ToHex_even s]⟩, ?_⟩
    have hall := utf8ToHex_hex s
    rw [List.all_eq_true] at hall
    have hCI : (utf8ToHex s).all isHexDigitCI = true := by
      rw [List.all_eq_true]
      intro c hc
      exact hexChar_ci c (hall c hc)
    simp [hCI])]
  rw [hexPairsToBytes_utf8ToHex, utf8Decode_encode]

theorem normalizeString_of_0x_hex (l : Str) (h : l.all isLowerHexDigit = true) :
    normalizeString ('0' :: 'x' :: l) = '0' :: 'x' :: l := by
  rw [List.all_eq_true] at h
  unfold normalizeString
  rw [trimStr_of_no_space _ (by
    rw [List.all_eq_true]
    intro c hc
    rcases List.mem_cons.mp hc with rfl | hc
    · decide
    · rcases List.mem_cons.mp hc with rfl | hc
      · decide
      · simp [hexChar_not_space c (h c hc)])]
  exact jsToLower_fix _ (by
    intro c hc
    rcases List.mem_cons.mp hc with rfl | hc
    · decide
    · rcases List.mem_cons.mp hc with rfl | hc
      · decide
      · exact hexChar_lower_fix c (h c hc))

theorem normalizeHex_utf8ToHex (s : Str) (h : s ≠ []) :
    normalizeHex (utf8ToHex s) = some ('0' :: 'x' :: utf8ToHex s) := by
  obtain ⟨hne, htakebs, htake0x⟩ := utf8ToHex_take2_ne s h
  simp only [normalizeHex]
  rw [normalizeString_of_hex _ (utf8ToHex_hex s)]
  rw [if_neg (by simp [List.isEmpty_iff, hne])]
  rw [if_neg htakebs, if_neg htake0x, if_pos (utf8ToHex_hex s)]

theorem normalizeHex_0x_utf8ToHex (s : Str) :
    normalizeHex ('0' :: 'x' :: utf8ToHex s) =
      some ('0' :: 'x' :: utf8ToHex s) := by
  simp only [normalizeHex]
  rw [normalizeString_of_0x_hex _ (utf8ToHex_hex s)]
  rw [if_neg (by simp)]
  rw [if_neg (by simp), if_pos (by simp)]

theorem if_then_true_of (p : Prop) [Decidable p] (x : Bool) (hx : x = true) :
    (if p then true else x) = true := by
  split
  · rfl
  · exact hx

/-- Claim C4 (amended): for every marker string whose normalized
(trimmed, lowercased) form is non-empty, a transfer event data field
holding (a) the raw marker, (b) its lowercase hex encoding without the
`0x` prefix, or (c) its lowercase hex encoding with the `0x` prefix is
matched by `eventMatchesData` against the marker, in each case
independently. -/
theorem c4_marker_encodings (m : Str) (hm : normalizeString m ≠ []) :
    eventMatchesData m m = true ∧
      eventMatchesData (utf8ToHex m) m = true ∧
      eventMatchesData ('0' :: 'x' :: utf8ToHex m) m = true := by
  have hmne : m ≠ [] := by
    intro hcon
    rw [hcon] at hm
    exact hm rfl
  refine ⟨?_, ?_, ?_⟩
  · simp only [eventMatchesData]
    rw [if_neg (by simp [List.isEmpty_iff, hm])]
    rw [if_pos (by simp)]
  · simp only [eventMatchesData]
    rw [if_neg (by simp [List.isEmpty_iff, hm])]
    rw [normalizeString_of_hex _ (utf8ToHex_hex m)]
    apply if_then_true_of
    rw [normalizeHex_utf8ToHex m hmne]
    simp only []
    apply if_then_true_of
    rw [hexToUtf8_0x_utf8ToHex m hmne]
    simp only []
    rw [Bool.and_eq_true]
    exact ⟨by simp [List.isEmpty_iff, hmne], by simp⟩
  · simp only [eventMatchesData]
    rw [if_neg (by simp [List.isEmpty_iff, hm])]
    rw [normalizeString_of_0x_hex _ (utf8ToHex_hex m)]
    apply if_then_true_of
    rw [normalizeHex_0x_utf8ToHex m]
    simp only []
    apply if_then_true_of
    rw [hexToUtf8_0x_utf8ToHex m hmne]
    simp only []
    rw [Bool.and_eq_true]
    exact ⟨by simp [List.isEmpty_iff, hmne], by simp⟩

/-- Claim C4 counterexample: the marker `" "` is a non-empty string,
yet a data field holding the raw marker text does not match it — the
marker trims to the empty string and `eventMatchesData` rejects empty
targets — refuting the claim for every non-empty marker. -/
theorem c4_counterexample :
    (" ").data ≠ [] ∧ eventMatchesData (" ").data (" ").data = false := by
  exact ⟨by decide, by decide⟩

/-- Witness for the amended claim C4 theorem at the marker `"sm:a"`. -/
theorem c4_marker_encodings_witness :
    normalizeString ("sm:a").data ≠ [] ∧
      (eventMatchesData ("sm:a").data ("sm:a").data = true ∧
        eventMatchesData (utf8ToHex ("sm:a").data) ("sm:a").data = true ∧
        eventMatchesData ('0' :: 'x' :: utf8ToHex ("sm:a").data)
          ("sm:a").data = true) :=
  ⟨by decide, c4_marker_encodings ("sm:a").data (by decide)⟩
